import Mathlib

/-!
Verification model of pydub's `AudioSegment` (src/pydub/audio_segment.py).

An `AudioSegment` holds interleaved PCM data plus format metadata.  We model
the raw byte buffer as a list of decoded integer samples (`data : List Int`);
every byte offset the source computes is a multiple of `sample_width`, so byte
offsets translate exactly to sample offsets via division by `sample_width`.
Python float arithmetic on millisecond positions is modelled exactly over `ℚ`
(`int()` truncation becomes `qTrunc`, Python 3 `round()` becomes `pyRound`,
which rounds half to even).  Operations that can raise Python exceptions
return `Except Err`.
-/

set_option linter.unusedVariables false

/-- Errors the modelled code can raise.  `tooManyMissingFrames` and
`invalidDuration` are the library's own exception classes (from
pydub.exceptions); `pyTypeError`, `zeroDivision`, `unboundLocalError` and
`assertionFailure` model the corresponding built-in Python exceptions;
`nonTermination` marks the overlay loop spinning forever;
`unsupportedChannelConversion` is the typed error named by the spec (it does
not occur anywhere in the source, which is relevant to claim C6). -/
inductive Err where
  | tooManyMissingFrames
  | invalidDuration
  | pyTypeError
  | zeroDivision
  | unboundLocalError
  | unsupportedChannelConversion
  | assertionFailure
  | nonTermination
  deriving DecidableEq, Repr

instance {ε α : Type} [DecidableEq ε] [DecidableEq α] : DecidableEq (Except ε α) :=
  fun a b =>
    match a, b with
    | .ok x, .ok y => if h : x = y then .isTrue (by rw [h]) else .isFalse (by simp [h])
    | .error x, .error y => if h : x = y then .isTrue (by rw [h]) else .isFalse (by simp [h])
    | .ok _, .error _ => .isFalse (by simp)
    | .error _, .ok _ => .isFalse (by simp)

/-- Addition on `ℚ` phrased through `Rat.divInt` so that closed terms reduce
inside the kernel; `qAdd_eq` below identifies it with `+`. -/
def qAdd (a b : ℚ) : ℚ :=
  Rat.divInt (a.num * b.den + b.num * a.den) (a.den * b.den)

/-- Subtraction on `ℚ`; `qSub_eq` identifies it with `-`. -/
def qSub (a b : ℚ) : ℚ :=
  Rat.divInt (a.num * b.den - b.num * a.den) (a.den * b.den)

/-- Multiplication on `ℚ`; `qMul_eq` identifies it with `*`. -/
def qMul (a b : ℚ) : ℚ :=
  Rat.divInt (a.num * b.num) (a.den * b.den)

/-- Division on `ℚ` (zero denominator gives 0, as in Mathlib); `qDiv_eq`
identifies it with `/`. -/
def qDiv (a b : ℚ) : ℚ :=
  Rat.divInt (a.num * b.den) (a.den * b.num)

/-- Python 3 `round` on an exact rational: round half to even.  Stated on the
numerator and denominator so that it evaluates by kernel reduction; `f` is
`⌊q⌋` and the comparison of `r2 = 2 * den * fract q` with `den` decides
whether the fractional part is below, above or exactly one half. -/
def pyRound (q : ℚ) : ℤ :=
  let f := q.num / q.den
  let r2 := 2 * (q.num - f * q.den)
  if r2 < (q.den : ℤ) then f
  else if (q.den : ℤ) < r2 then f + 1
  else if 2 ∣ f then f else f + 1

/-- Python `int()` applied to an exact rational: truncation toward zero. -/
def qTrunc (q : ℚ) : ℤ :=
  Int.tdiv q.num q.den

/-- Resolve a (possibly negative) Python slice index over a list of length
`n` to a clamped nonnegative index, as CPython does for step-1 slices. -/
def pyIndex (n : ℕ) (i : ℤ) : ℕ :=
  if i < 0 then ((n : ℤ) + i).toNat else min i.toNat n

/-- Python `l[a:b]` (step 1) with possibly negative and out-of-range bounds. -/
def pySlice (l : List ℤ) (a b : ℤ) : List ℤ :=
  (l.take (pyIndex l.length b)).drop (pyIndex l.length a)

/-- Clamp a sample value to the signed range of a `sw`-byte sample, as
audioop's fbound does. -/
def clamp (sw : ℕ) (x : ℤ) : ℤ :=
  max (-(2 ^ (8 * sw - 1))) (min (2 ^ (8 * sw - 1) - 1) x)

/-- Modelled from the spec: SampleMath.scalar_multiply (§6, audioop.mul is an
external collaborator).  Each sample is multiplied by the factor and the
result clamped to the sample range; the fractional part is discarded. -/
def mulData (sw : ℕ) (factor : ℚ) (data : List ℤ) : List ℤ :=
  data.map (fun x : ℤ => clamp sw ⌊qMul factor (x : ℚ)⌋)

/-- Modelled from the spec: SampleMath.additive_mix (§6, audioop.add is an
external collaborator).  Samples are added pairwise with clamping; the source
only ever calls it on fragments of equal length. -/
def addData (sw : ℕ) (a b : List ℤ) : List ℤ :=
  List.zipWith (fun x y => clamp sw (x + y)) a b

/-- Modelled from the spec: SampleMath.channel_convert 1→2 (§6, audioop.tostereo
with both factors 1): every mono sample is duplicated into both channels. -/
def tostereo (sw : ℕ) (data : List ℤ) : List ℤ :=
  data.flatMap (fun x => [clamp sw x, clamp sw x])

/-- Modelled from the spec: SampleMath.channel_convert 2→1 (§6, audioop.tomono
with both factors 1): each stereo frame collapses to the clamped sum of its
two samples. -/
def tomono (sw : ℕ) : List ℤ → List ℤ
  | l :: r :: rest => clamp sw (l + r) :: tomono sw rest
  | _ => []

/-- Modelled from the spec: SampleMath.resample (§6, audioop.ratecv is an
external collaborator).  The spec fixes only that it is pure; no theorem
below exercises a changed-rate path, because `set_frame_rate` short-circuits
when the rate is unchanged. -/
def resample (data : List ℤ) (fromRate toRate : ℕ) : List ℤ :=
  data

/-- Modelled from the spec: db_to_linear (pydub.utils.db_to_float), the
conversion `10 ^ (db / 20)` from decibels to a linear amplitude factor.  It is
exact whenever `db / 20` is an integer, which covers every gain the core
passes (0 and −120); other arguments never occur in the modelled call graph. -/
def dbToFloat (db : ℚ) : ℚ :=
  let e := qDiv db 20
  if e.den = 1 then
    if 0 ≤ e.num then Rat.divInt ((10 : ℤ) ^ e.num.toNat) 1
    else Rat.divInt 1 ((10 : ℤ) ^ (-e.num).toNat)
  else 0

/-- The segment value: decoded samples plus the metadata fields the source
stores (`channels`, `sample_width`, `frame_rate` and the stored, not
recomputed, `frame_width`). -/
structure AudioSegment where
  data : List ℤ
  channels : ℕ
  sampleWidth : ℕ
  frameRate : ℕ
  frameWidth : ℕ
  deriving DecidableEq, Repr

namespace AudioSegment

/-- The metadata construction path of `AudioSegment.__init__`: the buffer and
the metadata fields are stored as given, with no validation whatsoever. -/
def ofMetadata (data : List ℤ) (channels sampleWidth frameRate frameWidth : ℕ) :
    AudioSegment :=
  ⟨data, channels, sampleWidth, frameRate, frameWidth⟩

/-- Length of the raw buffer in bytes. -/
def byteLen (s : AudioSegment) : ℕ :=
  s.sampleWidth * s.data.length

/-- `frame_count()` with no argument: `len(self._data) // self.frame_width`. -/
def frameCountN (s : AudioSegment) : ℕ :=
  byteLen s / s.frameWidth

/-- `frame_count(ms)`: `ms * (self.frame_rate / 1000)`, exact over `ℚ`. -/
def frameCountMs (s : AudioSegment) (ms : ℚ) : ℚ :=
  qDiv (qMul ms (s.frameRate : ℚ)) 1000

/-- `__len__`: duration in milliseconds, `round(1000 * frame_count() / frame_rate)`. -/
def lenMs (s : AudioSegment) : ℤ :=
  pyRound (qDiv (qMul 1000 (frameCountN s : ℚ)) (s.frameRate : ℚ))

/-- `_parse_position`: negative positions count back from the end, then the
millisecond value is converted to a frame index with `int()` truncation.
(The `float('inf')` branch of the source is unreachable in the modelled call
graph: every caller reduces infinite bounds to `len(self)` first.) -/
def parsePos (s : AudioSegment) (v : ℤ) : ℤ :=
  let v2 : ℤ := if v < 0 then lenMs s + v else v
  qTrunc (frameCountMs s (v2 : ℚ))

/-- `_spawn`: a new segment with the same metadata and the given data. -/
def spawn (s : AudioSegment) (d : List ℤ) : AudioSegment :=
  { s with data := d }

/-- Python byte-string slice `self._data[a:b]` translated to samples; every
byte offset the source produces is a multiple of `sample_width`. -/
def byteSlice (data : List ℤ) (sw : ℕ) (a b : ℤ) : List ℤ :=
  pySlice data (Int.ediv a sw) (Int.ediv b sw)

/-- `get_frame(index)`: the frame_width bytes starting at `index * frame_width`. -/
def getFrame (s : AudioSegment) (i : ℤ) : List ℤ :=
  byteSlice s.data s.sampleWidth (i * s.frameWidth) (i * s.frameWidth + s.frameWidth)

/-- Core of `__getitem__` once the millisecond range `[startMs, stopMs)` is
known: resolve to byte offsets, slice, and apply the short-read padding
policy (frames of the first available frame attenuated to zero amplitude,
capped at 2 ms worth of frames). -/
def getitemRange (s : AudioSegment) (startMs stopMs : ℤ) : Except Err AudioSegment :=
  let sB := parsePos s startMs * s.frameWidth
  let eB := parsePos s stopMs * s.frameWidth
  let d := byteSlice s.data s.sampleWidth sB eB
  let expected := eB - sB
  let missing := Int.fdiv (expected - (s.sampleWidth : ℤ) * d.length) s.frameWidth
  if missing = 0 then .ok (spawn s d)
  else if (missing : ℚ) > frameCountMs s 2 then .error .tooManyMissingFrames
  else
    let silence := mulData s.sampleWidth 0 (d.take (s.frameWidth / s.sampleWidth))
    .ok (spawn s (d ++ (List.replicate missing.toNat silence).flatten))

/-- `__getitem__` with a slice argument: missing bounds default to `0` and
`len(self)`, and both bounds are clamped from above by `len(self)`. -/
def getitemSlice (s : AudioSegment) (a b : Option ℤ) : Except Err AudioSegment :=
  getitemRange s (min (a.getD 0) (lenMs s)) (min (b.getD (lenMs s)) (lenMs s))

/-- `__getitem__` with a single millisecond index `i`: the range `[i, i+1)`,
with no clamping. -/
def getitemIdx (s : AudioSegment) (i : ℤ) : Except Err AudioSegment :=
  getitemRange s i (i + 1)

/-- `set_channels`: identity when the count already matches, mono↔stereo via
SampleMath otherwise; any other conversion reads the local `fn` before
assignment, i.e. raises `UnboundLocalError`. -/
def set_channels (s : AudioSegment) (ch : ℕ) : Except Err AudioSegment :=
  if ch = s.channels then .ok s
  else if ch = 2 ∧ s.channels = 1 then
    .ok { s with data := tostereo s.sampleWidth s.data,
                 channels := 2, frameWidth := s.frameWidth * 2 }
  else if ch = 1 ∧ s.channels = 2 then
    .ok { s with data := tomono s.sampleWidth s.data,
                 channels := 1, frameWidth := s.frameWidth / 2 }
  else .error .unboundLocalError

/-- `set_frame_rate`: identity when the rate matches; otherwise resample
(empty data is passed through unchanged) and override the rate. -/
def set_frame_rate (s : AudioSegment) (fr : ℕ) : AudioSegment :=
  if fr = s.frameRate then s
  else { s with
          data := if s.data = [] then [] else resample s.data s.frameRate fr,
          frameRate := fr }

/-- `_sync`: bring both segments to the max channel count, then the max frame
rate, then assert that neither millisecond duration changed. -/
def sync (a b : AudioSegment) : Except Err (AudioSegment × AudioSegment) := do
  let s1Len := lenMs a
  let s2Len := lenMs b
  let ch := max a.channels b.channels
  let a1 ← set_channels a ch
  let b1 ← set_channels b ch
  let fr := max a1.frameRate b1.frameRate
  let a2 := set_frame_rate a1 fr
  let b2 := set_frame_rate b1 fr
  if lenMs a2 = s1Len ∧ lenMs b2 = s2Len then .ok (a2, b2)
  else .error .assertionFailure

/-- A millisecond bound passed to `fade`: an integer position or the
`float('inf')` sentinel that `append`/`fade_out` pass for "to the end". -/
inductive MsBound where
  | fin (ms : ℤ)
  | inf
  deriving DecidableEq, Repr

/-- `fade`: at most two of start/stop/duration may be given; a zero gain pair
short-circuits to the same segment; bounds are clamped to the length, negative
bounds count from the end, a negative duration raises `InvalidDuration`; the
missing one of start/stop is derived from the duration; then the output is the
head (flat `from_gain`), the ramp (coarse per-millisecond steps when the
duration exceeds 100 ms, else precise per-frame steps) and the tail (flat
`to_gain`).  Calls that leave start or stop unresolved hit `None` arithmetic
in the source and raise `TypeError`. -/
def fade (s : AudioSegment) (toGain fromGain : ℚ)
    (start stop : Option MsBound) (duration : Option ℤ) : Except Err AudioSegment :=
  if start ≠ none ∧ stop ≠ none ∧ duration ≠ none then .error .pyTypeError
  else if toGain = 0 ∧ fromGain = 0 then .ok s
  else
    let L := lenMs s
    let st0 : Option ℤ := start.map (fun p => match p with | .fin m => min L m | .inf => L)
    let en0 : Option ℤ := stop.map (fun p => match p with | .fin m => min L m | .inf => L)
    let st1 : Option ℤ := st0.map (fun m => if m < 0 then m + L else m)
    let en1 : Option ℤ := en0.map (fun m => if m < 0 then m + L else m)
    let negDur : Bool := match duration with | some d => decide (d < 0) | none => false
    if negDur then .error .invalidDuration
    else
      let resolved : Except Err (ℤ × ℤ × ℤ) :=
        match duration with
        | some d =>
          if d ≠ 0 then
            match st1 with
            | some st => .ok (st, st + d, d)
            | none =>
              match en1 with
              | some en => .ok (en - d, en, d)
              | none => .error .pyTypeError
          else
            match st1, en1 with
            | some st, some en => .ok (st, en, en - st)
            | _, _ => .error .pyTypeError
        | none =>
          match st1, en1 with
          | some st, some en => .ok (st, en, en - st)
          | _, _ => .error .pyTypeError
      match resolved with
      | .error e => .error e
      | .ok (st, en, d) => do
        let fromPower := dbToFloat fromGain
        let beforeSeg ← getitemSlice s none (some st)
        let beforeData :=
          if fromGain ≠ 0 then mulData s.sampleWidth fromPower beforeSeg.data
          else beforeSeg.data
        let gainDelta := qSub (dbToFloat toGain) fromPower
        let ramp ←
          if d > 100 then
            let scaleStep := qDiv gainDelta (d : ℚ)
            Except.map List.flatten
              ((List.range d.toNat).mapM (fun i : ℕ =>
                (getitemIdx s (st + (i : ℤ))).map (fun c =>
                  mulData s.sampleWidth (qAdd fromPower (qMul scaleStep (i : ℚ))) c.data)))
          else
            let startFrame := frameCountMs s (st : ℚ)
            let endFrame := frameCountMs s (en : ℚ)
            let fadeFrames := qSub endFrame startFrame
            if fadeFrames = 0 then .error .zeroDivision
            else
              let scaleStep := qDiv gainDelta fadeFrames
              .ok (((List.range (qTrunc fadeFrames).toNat).map (fun i : ℕ =>
                    mulData s.sampleWidth (qAdd fromPower (qMul scaleStep (i : ℚ)))
                      (getFrame s (qTrunc (qAdd startFrame (i : ℚ)))))).flatten)
        let afterSeg ← getitemSlice s (some en) none
        let afterData :=
          if toGain ≠ 0 then mulData s.sampleWidth (dbToFloat toGain) afterSeg.data
          else afterSeg.data
        .ok (spawn s (beforeData ++ ramp ++ afterData))

/-- The `while True` mixing loop of `overlay`, on raw sample lists.  `pos` is
the write position inside `d1`; once `d2` reaches past the remaining length it
is truncated and the loop flag cleared; with fuel exhausted (`other` empty,
`loop` set and data remaining) the Python loop never terminates. -/
def overlayLoop (sw : ℕ) (d1 d2 : List ℤ) : ℕ → ℕ → Bool → Option (List ℤ)
  | 0, _, _ => none
  | fuel + 1, pos, loop =>
    let remaining := d1.length - pos
    if d2.length ≥ remaining then
      some (addData sw ((d1.drop pos).take remaining) (d2.take remaining) ++
            d1.drop (pos + remaining))
    else
      let chunk := addData sw ((d1.drop pos).take d2.length) d2
      if loop then
        (overlayLoop sw d1 d2 fuel (pos + d2.length) loop).map (fun rest => chunk ++ rest)
      else
        some (chunk ++ d1.drop (pos + d2.length))

/-- `overlay`: sync, copy `base[:position]`, then additively mix `seg` into
`base[position:]`, looping while the flag is set, and copy whatever of the
base remains. -/
def overlay (self seg : AudioSegment) (position : ℤ) (loop : Bool) :
    Except Err AudioSegment := do
  let (s1, s2) ← sync self seg
  let preSeg ← getitemSlice s1 none (some position)
  let bodySeg ← getitemSlice s1 (some position) none
  match overlayLoop s1.sampleWidth bodySeg.data s2.data (bodySeg.data.length + 1) 0 loop with
  | none => .error .nonTermination
  | some mixed => .ok (spawn s1 (preSeg.data ++ mixed))

/-- `append`: sync; with zero crossfade, plain concatenation of the raw data;
otherwise fade out the last `crossfade` ms of `self`, fade in the first
`crossfade` ms of `seg`, overlay the two windows (the `*` operator, i.e.
`overlay` at position 0 with loop), and concatenate head, blend and tail. -/
def append (self seg : AudioSegment) (crossfade : ℤ) : Except Err AudioSegment := do
  let (s1, s2) ← sync self seg
  if crossfade = 0 then
    .ok (spawn s1 (s1.data ++ s2.data))
  else do
    let t1 ← getitemSlice s1 (some (-crossfade)) none
    let f1 ← fade t1 (-120) 0 (some (.fin 0)) (some .inf) none
    let t2 ← getitemSlice s2 none (some crossfade)
    let f2 ← fade t2 0 (-120) (some (.fin 0)) (some .inf) none
    let xf ← overlay f1 f2 0 true
    let headSeg ← getitemSlice s1 none (some (-crossfade))
    let tailSeg ← getitemSlice s2 (some crossfade) none
    .ok (spawn s1 (headSeg.data ++ xf.data ++ tailSeg.data))

/-- Exactness conditions under which the millisecond/frame round-trips of the
source are lossless: consistent metadata, a frame rate that is a whole number
of frames per millisecond (`1000 * k`), and a buffer holding exactly `L`
milliseconds (`L * k` frames).  The rounding counterexamples below show the
spec's algebraic laws fail without such a condition. -/
def Nice (s : AudioSegment) (L k : ℕ) : Prop :=
  s.frameWidth = s.channels * s.sampleWidth ∧ 0 < s.channels ∧ 0 < s.sampleWidth ∧
  s.frameRate = 1000 * k ∧ 0 < k ∧ s.data.length = L * k * s.channels

instance (s : AudioSegment) (L k : ℕ) : Decidable (Nice s L k) := by
  unfold Nice; infer_instance

/-- The fade gain ramp exactly as the spec words it: more than 100 ms of
fade gives one step per millisecond (`duration` steps, each step scaling the
whole millisecond `start + i` uniformly), otherwise one step per frame of the
window; step `i` scales by `from_power + i * (to_power - from_power) / steps`
in linear amplitude space. -/
def rampSpec (s : AudioSegment) (toGain fromGain : ℚ) (st en : ℤ) :
    Except Err (List ℤ) :=
  let fromPower := dbToFloat fromGain
  let toPower := dbToFloat toGain
  let d := en - st
  if d > 100 then
    Except.map List.flatten
      ((List.range d.toNat).mapM (fun i : ℕ =>
        (getitemIdx s (st + (i : ℤ))).map (fun c =>
          mulData s.sampleWidth
            (qAdd fromPower (qDiv (qMul (i : ℚ) (qSub toPower fromPower)) (d : ℚ))) c.data)))
  else
    let steps := qSub (frameCountMs s (en : ℚ)) (frameCountMs s (st : ℚ))
    .ok (((List.range (qTrunc steps).toNat).map (fun i : ℕ =>
          mulData s.sampleWidth
            (qAdd fromPower (qDiv (qMul (i : ℚ) (qSub toPower fromPower)) steps))
            (getFrame s (qTrunc (qAdd (frameCountMs s (st : ℚ)) (i : ℚ)))))).flatten)

end AudioSegment

open AudioSegment

/-- Two one-byte mono frames at 600 frames per second: its duration rounds to
3 ms although it only holds 2 frames, which breaks the spec's slice laws. -/
def seg600 : AudioSegment := ⟨[7, 9], 1, 1, 600, 1⟩

/-- A one-frame overlay source in the format of `seg600`. -/
def seg600b : AudioSegment := ⟨[5], 1, 1, 600, 1⟩

/-- One one-byte mono frame at 250 frames per second: duration 4 ms. -/
def seg250 : AudioSegment := ⟨[7], 1, 1, 250, 1⟩

/-- An empty segment claiming 250 frames per second. -/
def seg250e : AudioSegment := ⟨[], 1, 1, 250, 1⟩

/-- An empty segment claiming 500 frames per second. -/
def seg500e : AudioSegment := ⟨[], 1, 1, 500, 1⟩

/-- Twelve one-byte mono frames at 8000 frames per second: `len` rounds
1.5 ms up to 2 ms, so the full slice must pad 4 frames at the tail. -/
def seg8000 : AudioSegment := ⟨[1, 2, 3, 4, 5, 6, 7, 8, 9, 10, 11, 12], 1, 1, 8000, 1⟩

/-- A well-behaved segment: two 2-byte mono frames at 1000 frames per second
(1 frame per millisecond, duration exactly 2 ms). -/
def segNice : AudioSegment := ⟨[100, 200], 1, 2, 1000, 2⟩

/-- A well-behaved one-frame segment in the format of `segNice`. -/
def segNiceb : AudioSegment := ⟨[5], 1, 2, 1000, 2⟩

/-- Three one-byte mono frames at 1000 frames per second. -/
def segW3 : AudioSegment := ⟨[4, 4, 4], 1, 1, 1000, 1⟩

/-! ### Bridge lemmas for the computable rational operations -/

theorem qAdd_eq (a b : ℚ) : qAdd a b = a + b := by
  have ha : ((a.den : ℚ)) ≠ 0 := Nat.cast_ne_zero.mpr a.den_nz
  have hb : ((b.den : ℚ)) ≠ 0 := Nat.cast_ne_zero.mpr b.den_nz
  rw [qAdd, Rat.divInt_eq_div]
  conv_rhs => rw [← Rat.num_div_den a, ← Rat.num_div_den b]
  push_cast
  field_simp
  try ring

theorem qSub_eq (a b : ℚ) : qSub a b = a - b := by
  have ha : ((a.den : ℚ)) ≠ 0 := Nat.cast_ne_zero.mpr a.den_nz
  have hb : ((b.den : ℚ)) ≠ 0 := Nat.cast_ne_zero.mpr b.den_nz
  rw [qSub, Rat.divInt_eq_div]
  conv_rhs => rw [← Rat.num_div_den a, ← Rat.num_div_den b]
  push_cast
  field_simp
  try ring

theorem qMul_eq (a b : ℚ) : qMul a b = a * b := by
  have ha : ((a.den : ℚ)) ≠ 0 := Nat.cast_ne_zero.mpr a.den_nz
  have hb : ((b.den : ℚ)) ≠ 0 := Nat.cast_ne_zero.mpr b.den_nz
  rw [qMul, Rat.divInt_eq_div]
  conv_rhs => rw [← Rat.num_div_den a, ← Rat.num_div_den b]
  push_cast
  field_simp
  try ring

theorem qDiv_eq (a b : ℚ) : qDiv a b = a / b := by
  rcases eq_or_ne b 0 with hb0 | hb0
  · subst hb0
    simp [qDiv]
  · have ha : ((a.den : ℚ)) ≠ 0 := Nat.cast_ne_zero.mpr a.den_nz
    have hb : ((b.den : ℚ)) ≠ 0 := Nat.cast_ne_zero.mpr b.den_nz
    have hbn : ((b.num : ℚ)) ≠ 0 := by
      exact_mod_cast Rat.num_ne_zero.mpr hb0
    rw [qDiv, Rat.divInt_eq_div]
    conv_rhs => rw [← Rat.num_div_den a, ← Rat.num_div_den b]
    push_cast
    field_simp
    try ring

/-! ### Rounding and truncation lemmas -/

theorem num_eq_mul_den (q : ℚ) : (q.num : ℚ) = q * q.den := by
  have h : ((q.den : ℚ)) ≠ 0 := Nat.cast_ne_zero.mpr q.den_nz
  calc (q.num : ℚ) = (q.num : ℚ) / q.den * q.den := by rw [div_mul_cancel₀ _ h]
  _ = q * q.den := by rw [Rat.num_div_den]

theorem qTrunc_eq_floor {q : ℚ} (h : 0 ≤ q) : qTrunc q = ⌊q⌋ := by
  rw [qTrunc, Int.tdiv_eq_ediv (Rat.num_nonneg.mpr h) (by positivity), Rat.floor_def]

theorem qTrunc_intCast (n : ℤ) : qTrunc (n : ℚ) = n := by
  rw [qTrunc]
  simp [Rat.intCast_num, Rat.intCast_den]

theorem pyRound_disj (q : ℚ) :
    (pyRound q = ⌊q⌋ ∧ q - ⌊q⌋ ≤ 1/2) ∨ (pyRound q = ⌊q⌋ + 1 ∧ 1/2 ≤ q - ⌊q⌋) := by
  have hden : (0:ℚ) < (q.den : ℚ) := by exact_mod_cast q.pos
  have hnum : (q.num : ℚ) = q * q.den := num_eq_mul_den q
  have hfl : q.num / (q.den : ℤ) = ⌊q⌋ := Rat.floor_def.symm
  simp only [pyRound, hfl]
  split_ifs with h1 h2 h3
  · left
    refine ⟨rfl, ?_⟩
    have h1q : (2:ℚ) * ((q.num : ℚ) - (⌊q⌋ : ℚ) * (q.den : ℚ)) < (q.den : ℚ) := by
      exact_mod_cast h1
    rw [hnum] at h1q
    nlinarith
  · right
    refine ⟨rfl, ?_⟩
    have h2q : ((q.den : ℚ)) < 2 * ((q.num : ℚ) - (⌊q⌋ : ℚ) * (q.den : ℚ)) := by
      exact_mod_cast h2
    rw [hnum] at h2q
    nlinarith
  · left
    refine ⟨rfl, ?_⟩
    push_neg at h2
    have h2q : (2:ℚ) * ((q.num : ℚ) - (⌊q⌋ : ℚ) * (q.den : ℚ)) ≤ (q.den : ℚ) := by
      exact_mod_cast h2
    rw [hnum] at h2q
    nlinarith
  · right
    refine ⟨rfl, ?_⟩
    push_neg at h1
    have h1q : ((q.den : ℚ)) ≤ 2 * ((q.num : ℚ) - (⌊q⌋ : ℚ) * (q.den : ℚ)) := by
      exact_mod_cast h1
    rw [hnum] at h1q
    nlinarith

theorem pyRound_le (q : ℚ) : (pyRound q : ℚ) ≤ q + 1/2 := by
  rcases pyRound_disj q with ⟨he, hb⟩ | ⟨he, hb⟩ <;> rw [he] <;> push_cast <;>
    nlinarith [Int.floor_le q, Int.lt_floor_add_one q]

theorem le_pyRound (q : ℚ) : q - 1/2 ≤ (pyRound q : ℚ) := by
  rcases pyRound_disj q with ⟨he, hb⟩ | ⟨he, hb⟩ <;> rw [he] <;> push_cast <;>
    nlinarith [Int.floor_le q, Int.lt_floor_add_one q]

theorem pyRound_intCast (n : ℤ) : pyRound (n : ℚ) = n := by
  rcases pyRound_disj (n : ℚ) with ⟨he, hb⟩ | ⟨he, hb⟩
  · rw [he, Int.floor_intCast]
  · rw [Int.floor_intCast] at hb
    norm_num at hb

theorem pyRound_eq_one {q : ℚ} (h1 : 1/2 < q) (h2 : q < 3/2) : pyRound q = 1 := by
  have hl : (0:ℤ) ≤ ⌊q⌋ := Int.floor_nonneg.mpr (by linarith)
  have hu : ⌊q⌋ < 2 := Int.floor_lt.mpr (by push_cast; linarith)
  rcases pyRound_disj q with ⟨he, hb⟩ | ⟨he, hb⟩
  · have h1' : (1:ℤ) ≤ ⌊q⌋ := by
      by_contra hc
      push_neg at hc
      have : ⌊q⌋ = 0 := by omega
      rw [this] at hb
      push_cast at hb
      linarith
    rw [he]
    omega
  · have h0 : ⌊q⌋ = 0 := by
      by_contra hc
      have h1' : (1:ℤ) ≤ ⌊q⌋ := by omega
      have : (1:ℚ) ≤ (⌊q⌋:ℚ) := by exact_mod_cast h1'
      linarith
    rw [he, h0]
    norm_num

/-! ### Exact-duration segment lemmas -/

open AudioSegment

theorem frameCountMs_eq (s : AudioSegment) (ms : ℚ) :
    frameCountMs s ms = ms * (s.frameRate : ℚ) / 1000 := by
  rw [frameCountMs, qMul_eq, qDiv_eq]

theorem lenMs_eq (s : AudioSegment) :
    lenMs s = pyRound (1000 * (frameCountN s : ℚ) / (s.frameRate : ℚ)) := by
  rw [lenMs, qMul_eq, qDiv_eq]

theorem nice_frameCountN {s : AudioSegment} {L k : ℕ} (h : Nice s L k) :
    frameCountN s = L * k := by
  obtain ⟨hfw, hch, hsw, hfr, hk, hlen⟩ := h
  rw [frameCountN, byteLen, hlen, hfw]
  have he : s.sampleWidth * (L * k * s.channels) = L * k * (s.channels * s.sampleWidth) := by
    ring
  rw [he, Nat.mul_div_cancel _ (Nat.mul_pos hch hsw)]

theorem nice_lenMs {s : AudioSegment} {L k : ℕ} (h : Nice s L k) : lenMs s = L := by
  have hfr := h.2.2.2.1
  have hk : 0 < k := h.2.2.2.2.1
  rw [lenMs_eq, nice_frameCountN h, hfr]
  have he : (1000 : ℚ) * ((L * k : ℕ) : ℚ) / ((1000 * k : ℕ) : ℚ) = ((L : ℤ) : ℚ) := by
    have hk0 : ((k : ℚ)) ≠ 0 := Nat.cast_ne_zero.mpr hk.ne'
    push_cast
    field_simp
    ring
  rw [he, pyRound_intCast]

theorem nice_parsePos_nonneg {s : AudioSegment} {L k : ℕ} (h : Nice s L k) {m : ℤ}
    (hm : 0 ≤ m) : parsePos s m = m * k := by
  have hfr := h.2.2.2.1
  simp only [parsePos, if_neg (not_lt.mpr hm)]
  rw [frameCountMs_eq, hfr]
  have he : (m : ℚ) * ((1000 * k : ℕ) : ℚ) / 1000 = ((m * k : ℤ) : ℚ) := by
    push_cast
    field_simp
    ring
  rw [he, qTrunc_intCast]

theorem nice_parsePos_neg {s : AudioSegment} {L k : ℕ} (h : Nice s L k) {c : ℤ}
    (hc : c < 0) : parsePos s c = (L + c) * k := by
  have hfr := h.2.2.2.1
  have hL := nice_lenMs h
  simp only [parsePos, if_pos hc]
  rw [hL, frameCountMs_eq, hfr]
  have he : (((L : ℤ) + c : ℤ) : ℚ) * ((1000 * k : ℕ) : ℚ) / 1000 =
      ((((L : ℤ) + c) * k : ℤ) : ℚ) := by
    push_cast
    field_simp
    ring
  rw [he, qTrunc_intCast]

theorem nice_byteSlice {s : AudioSegment} {L k : ℕ} (h : Nice s L k) {fa fb : ℕ}
    (hab : fa ≤ fb) (hb : fb ≤ L * k) :
    byteSlice s.data s.sampleWidth ((fa : ℤ) * s.frameWidth) ((fb : ℤ) * s.frameWidth) =
      (s.data.take (fb * s.channels)).drop (fa * s.channels) := by
  obtain ⟨hfw, hch, hsw, hfr, hk, hlen⟩ := h
  have hsw0 : ((s.sampleWidth : ℤ)) ≠ 0 := by exact_mod_cast hsw.ne'
  have hdiv : ∀ x : ℤ, Int.ediv (x * (s.sampleWidth : ℤ)) (s.sampleWidth : ℤ) = x := by
    intro x
    rw [show Int.ediv (x * (s.sampleWidth : ℤ)) (s.sampleWidth : ℤ) =
        x * (s.sampleWidth : ℤ) / (s.sampleWidth : ℤ) from rfl]
    exact Int.mul_ediv_cancel _ hsw0
  have hea : Int.ediv ((fa : ℤ) * s.frameWidth) s.sampleWidth = ((fa * s.channels : ℕ) : ℤ) := by
    rw [hfw]
    push_cast
    rw [show (fa : ℤ) * ((s.channels : ℤ) * (s.sampleWidth : ℤ)) =
        ((fa : ℤ) * (s.channels : ℤ)) * (s.sampleWidth : ℤ) by ring]
    exact hdiv _
  have heb : Int.ediv ((fb : ℤ) * s.frameWidth) s.sampleWidth = ((fb * s.channels : ℕ) : ℤ) := by
    rw [hfw]
    push_cast
    rw [show (fb : ℤ) * ((s.channels : ℤ) * (s.sampleWidth : ℤ)) =
        ((fb : ℤ) * (s.channels : ℤ)) * (s.sampleWidth : ℤ) by ring]
    exact hdiv _
  rw [byteSlice, hea, heb, pySlice, pyIndex, pyIndex]
  rw [if_neg (not_lt.mpr (by positivity : (0:ℤ) ≤ ((fa * s.channels : ℕ) : ℤ)))]
  rw [if_neg (not_lt.mpr (by positivity : (0:ℤ) ≤ ((fb * s.channels : ℕ) : ℤ)))]
  have hna : (fa * s.channels) ≤ s.data.length := by
    rw [hlen]
    calc fa * s.channels ≤ (L * k) * s.channels := by
          exact Nat.mul_le_mul_right _ (le_trans hab hb)
    _ = L * k * s.channels := rfl
  have hnb : (fb * s.channels) ≤ s.data.length := by
    rw [hlen]
    exact Nat.mul_le_mul_right _ hb
  simp only [Int.toNat_natCast]
  rw [min_eq_left hna, min_eq_left hnb]

theorem nice_getitemRange {s : AudioSegment} {L k : ℕ} (h : Nice s L k) {a b : ℤ} {p q : ℕ}
    (hpa : parsePos s a = (p : ℤ) * k) (hqb : parsePos s b = (q : ℤ) * k)
    (hpq : p ≤ q) (hqL : q ≤ L) :
    getitemRange s a b =
      .ok (spawn s ((s.data.take (q * k * s.channels)).drop (p * k * s.channels))) := by
  have hch : 0 < s.channels := h.2.1
  have hsw : 0 < s.sampleWidth := h.2.2.1
  have hlen := h.2.2.2.2.2
  have hcast : ∀ m : ℕ, ((m : ℤ) * k : ℤ) = ((m * k : ℕ) : ℤ) := by
    intro m
    push_cast
    ring
  simp only [getitemRange, hpa, hqb]
  rw [hcast p, hcast q, nice_byteSlice h (Nat.mul_le_mul_right _ hpq) (Nat.mul_le_mul_right _ hqL)]
  have hcc : p * k * s.channels ≤ q * k * s.channels :=
    Nat.mul_le_mul_right _ (Nat.mul_le_mul_right _ hpq)
  have hqlen : q * k * s.channels ≤ s.data.length := by
    rw [hlen]
    exact Nat.mul_le_mul_right _ (Nat.mul_le_mul_right _ hqL)
  have hdl : ((s.data.take (q * k * s.channels)).drop (p * k * s.channels)).length =
      q * k * s.channels - p * k * s.channels := by
    rw [List.length_drop, List.length_take, min_eq_left hqlen]
  have hmiss : ((q * k : ℕ) : ℤ) * s.frameWidth - ((p * k : ℕ) : ℤ) * s.frameWidth -
      (s.sampleWidth : ℤ) * ((s.data.take (q * k * s.channels)).drop (p * k * s.channels)).length
      = 0 := by
    rw [hdl, h.1]
    push_cast [Nat.sub_mul, Nat.mul_sub]
    push_cast [Nat.mul_le_mul_right _ (Nat.mul_le_mul_right _ hpq)]
    ring
  rw [hmiss]
  simp [Int.fdiv]

theorem nice_spawn {s : AudioSegment} {L k : ℕ} (h : Nice s L k) {d : List ℤ} {M : ℕ}
    (hd : d.length = M * k * s.channels) : Nice (spawn s d) M k := by
  obtain ⟨hfw, hch, hsw, hfr, hk, hlen⟩ := h
  exact ⟨hfw, hch, hsw, hfr, hk, hd⟩

theorem nice_sub_length {s : AudioSegment} {L k : ℕ} (h : Nice s L k) {p q : ℕ}
    (hpq : p ≤ q) (hqL : q ≤ L) :
    ((s.data.take (q * k * s.channels)).drop (p * k * s.channels)).length =
      (q - p) * k * s.channels := by
  have hlen := h.2.2.2.2.2
  have hqlen : q * k * s.channels ≤ s.data.length := by
    rw [hlen]
    exact Nat.mul_le_mul_right _ (Nat.mul_le_mul_right _ hqL)
  rw [List.length_drop, List.length_take, min_eq_left hqlen]
  rw [Nat.sub_mul, Nat.sub_mul]

theorem nice_getitemSlice_head {s : AudioSegment} {L k : ℕ} (h : Nice s L k) {p : ℕ}
    (hpL : p ≤ L) :
    getitemSlice s none (some (p : ℤ)) = .ok (spawn s (s.data.take (p * k * s.channels))) := by
  have hL := nice_lenMs h
  rw [getitemSlice]
  have h1 : min ((none : Option ℤ).getD 0) (lenMs s) = (0 : ℤ) := by
    rw [hL]
    simp only [Option.getD_none]
    exact min_eq_left (by positivity)
  have h2 : min ((some (p : ℤ)).getD (lenMs s)) (lenMs s) = (p : ℤ) := by
    rw [hL]
    simp only [Option.getD_some]
    exact min_eq_left (by exact_mod_cast hpL)
  rw [h1, h2]
  have hz : parsePos s 0 = ((0 : ℕ) : ℤ) * k := by
    rw [nice_parsePos_nonneg h le_rfl]
    simp
  have hp : parsePos s (p : ℤ) = ((p : ℕ) : ℤ) * k :=
    nice_parsePos_nonneg h (by positivity)
  rw [nice_getitemRange h hz hp (Nat.zero_le _) hpL]
  simp

theorem nice_getitemSlice_suffix {s : AudioSegment} {L k : ℕ} (h : Nice s L k) {p : ℕ}
    (hpL : p ≤ L) :
    getitemSlice s (some (p : ℤ)) none = .ok (spawn s (s.data.drop (p * k * s.channels))) := by
  have hL := nice_lenMs h
  have hlen := h.2.2.2.2.2
  rw [getitemSlice]
  have h1 : min ((some (p : ℤ)).getD 0) (lenMs s) = (p : ℤ) := by
    rw [hL]
    simp only [Option.getD_some]
    exact min_eq_left (by exact_mod_cast hpL)
  have h2 : min ((none : Option ℤ).getD (lenMs s)) (lenMs s) = ((L : ℕ) : ℤ) := by
    rw [hL]
    simp only [Option.getD_none, min_self]
  rw [h1, h2]
  have hp : parsePos s (p : ℤ) = ((p : ℕ) : ℤ) * k :=
    nice_parsePos_nonneg h (by positivity)
  have hq : parsePos s (L : ℤ) = ((L : ℕ) : ℤ) * k :=
    nice_parsePos_nonneg h (by positivity)
  rw [nice_getitemRange h hp hq hpL le_rfl]
  rw [List.take_of_length_le (by rw [hlen])]

theorem nice_getitemSlice_upto_neg {s : AudioSegment} {L k : ℕ} (h : Nice s L k) {c : ℕ}
    (hc : 0 < c) (hcL : c ≤ L) :
    getitemSlice s none (some (-(c : ℤ))) =
      .ok (spawn s (s.data.take ((L - c) * k * s.channels))) := by
  have hL := nice_lenMs h
  rw [getitemSlice]
  have h1 : min ((none : Option ℤ).getD 0) (lenMs s) = (0 : ℤ) := by
    rw [hL]
    simp only [Option.getD_none]
    exact min_eq_left (by positivity)
  have h2 : min ((some (-(c : ℤ))).getD (lenMs s)) (lenMs s) = -(c : ℤ) := by
    rw [hL]
    simp only [Option.getD_some]
    exact min_eq_left (by omega)
  rw [h1, h2]
  have hz : parsePos s 0 = ((0 : ℕ) : ℤ) * k := by
    rw [nice_parsePos_nonneg h le_rfl]
    simp
  have hp : parsePos s (-(c : ℤ)) = (((L - c : ℕ)) : ℤ) * k := by
    rw [nice_parsePos_neg h (by omega)]
    congr 1
    omega
  rw [nice_getitemRange h hz hp (Nat.zero_le _) (by omega)]
  simp

theorem nice_getitemSlice_from_neg {s : AudioSegment} {L k : ℕ} (h : Nice s L k) {c : ℕ}
    (hc : 0 < c) (hcL : c ≤ L) :
    getitemSlice s (some (-(c : ℤ))) none =
      .ok (spawn s (s.data.drop ((L - c) * k * s.channels))) := by
  have hL := nice_lenMs h
  have hlen := h.2.2.2.2.2
  rw [getitemSlice]
  have h1 : min ((some (-(c : ℤ))).getD 0) (lenMs s) = -(c : ℤ) := by
    rw [hL]
    simp only [Option.getD_some]
    exact min_eq_left (by omega)
  have h2 : min ((none : Option ℤ).getD (lenMs s)) (lenMs s) = ((L : ℕ) : ℤ) := by
    rw [hL]
    simp only [Option.getD_none, min_self]
  rw [h1, h2]
  have hp : parsePos s (-(c : ℤ)) = (((L - c : ℕ)) : ℤ) * k := by
    rw [nice_parsePos_neg h (by omega)]
    congr 1
    omega
  have hq : parsePos s (L : ℤ) = ((L : ℕ) : ℤ) * k :=
    nice_parsePos_nonneg h (by positivity)
  rw [nice_getitemRange h hp hq (by omega) le_rfl]
  rw [List.take_of_length_le (by rw [hlen])]

theorem nice_getitemIdx {s : AudioSegment} {L k : ℕ} (h : Nice s L k) {i : ℕ}
    (hiL : i < L) :
    getitemIdx s (i : ℤ) =
      .ok (spawn s ((s.data.take ((i + 1) * k * s.channels)).drop (i * k * s.channels))) := by
  rw [getitemIdx]
  have hp : parsePos s (i : ℤ) = ((i : ℕ) : ℤ) * k :=
    nice_parsePos_nonneg h (by positivity)
  have hq : parsePos s ((i : ℤ) + 1) = (((i + 1 : ℕ)) : ℤ) * k := by
    rw [show ((i : ℤ) + 1) = ((i + 1 : ℕ) : ℤ) by push_cast; ring]
    exact nice_parsePos_nonneg h (by positivity)
  exact nice_getitemRange h hp hq (Nat.le_succ _) (by omega)

@[simp] theorem except_bind_ok {ε α β : Type} (x : α) (f : α → Except ε β) :
    (Except.ok x : Except ε α) >>= f = f x := rfl

@[simp] theorem except_map_ok {ε α β : Type} (f : α → β) (x : α) :
    Except.map f (Except.ok x : Except ε α) = .ok (f x) := rfl

theorem list_mapM_ok {α β : Type} {l : List α} {f : α → Except Err β} {g : α → β}
    (h : ∀ x ∈ l, f x = .ok (g x)) : l.mapM f = .ok (l.map g) := by
  induction l with
  | nil => rfl
  | cons a t ih =>
    rw [List.mapM_cons, h a (List.mem_cons_self a t), List.map_cons]
    simp only [except_bind_ok]
    rw [ih (fun x hx => h x (List.mem_cons_of_mem _ hx))]
    rfl

theorem flatten_length_const {l : List (List ℤ)} {m : ℕ}
    (h : ∀ x ∈ l, x.length = m) : l.flatten.length = l.length * m := by
  induction l with
  | nil => simp
  | cons a t ih =>
    simp only [List.flatten_cons, List.length_append, List.length_cons,
      h a (List.mem_cons_self a t), ih (fun x hx => h x (List.mem_cons_of_mem _ hx))]
    ring

@[simp] theorem mulData_length (sw : ℕ) (f : ℚ) (d : List ℤ) :
    (mulData sw f d).length = d.length := by
  simp [mulData]

theorem nice_getFrame_length {s : AudioSegment} {L k : ℕ} (h : Nice s L k) {i : ℕ}
    (hi : i < L * k) : (getFrame s (i : ℤ)).length = s.channels := by
  have hch : 0 < s.channels := h.2.1
  have hlen := h.2.2.2.2.2
  rw [getFrame]
  rw [show (i : ℤ) * s.frameWidth + s.frameWidth = ((i + 1 : ℕ) : ℤ) * s.frameWidth by
    push_cast
    ring]
  rw [nice_byteSlice h (Nat.le_succ i) (by omega)]
  rw [List.length_drop, List.length_take]
  have hle : (i + 1) * s.channels ≤ s.data.length := by
    rw [hlen]
    exact Nat.mul_le_mul_right _ (by omega)
  rw [min_eq_left hle]
  rw [Nat.succ_mul]
  omega

/-! ### Fade on exact-duration segments -/

@[simp] theorem spawn_data (s : AudioSegment) (d : List ℤ) : (spawn s d).data = d := rfl

@[simp] theorem mulData_nil (sw : ℕ) (f : ℚ) : mulData sw f [] = [] := rfl

theorem nice_fade_xf {A : AudioSegment} {c k : ℕ} (h : Nice A c k) (hc : 0 < c)
    (tg fg : ℚ) (hg : ¬(tg = 0 ∧ fg = 0)) :
    ∃ d : List ℤ, fade A tg fg (some (.fin 0)) (some .inf) none = .ok (spawn A d) ∧
      d.length = c * k * A.channels := by
  have hk : 0 < k := h.2.2.2.2.1
  have hch : 0 < A.channels := h.2.1
  have hfr := h.2.2.2.1
  have hL := nice_lenMs h
  have hmin0 : ((c : ℤ) ⊓ 0) = 0 := min_eq_right (by positivity)
  have hbefore : getitemSlice A none (some (0 : ℤ)) = .ok (spawn A []) := by
    have hb := nice_getitemSlice_head h (p := 0) (Nat.zero_le c)
    rw [Nat.cast_zero] at hb
    simpa using hb
  have hafter : getitemSlice A (some ((c : ℕ) : ℤ)) none = .ok (spawn A []) := by
    have ha := nice_getitemSlice_suffix h (p := c) le_rfl
    rw [ha]
    rw [List.drop_of_length_le (le_of_eq h.2.2.2.2.2)]
  rw [fade, if_neg (by simp), if_neg hg]
  simp only [hL, Option.map_some', hmin0, lt_irrefl, if_false, if_neg (lt_irrefl (0 : ℤ))]
  rw [if_neg (not_lt.mpr (by positivity : (0:ℤ) ≤ (c:ℤ)))]
  simp only [Bool.false_eq_true, if_false, sub_zero]
  rw [hbefore]
  simp only [except_bind_ok, spawn_data]
  by_cases hc100 : ((c : ℤ)) > 100
  · rw [if_pos hc100]
    have hmapM : (List.range ((c : ℤ)).toNat).mapM (fun i : ℕ =>
        Except.map (fun t => mulData A.sampleWidth
          (qAdd (dbToFloat fg) (qMul (qDiv (qSub (dbToFloat tg) (dbToFloat fg)) ((c:ℤ) : ℚ))
            ((i : ℕ) : ℚ))) t.data) (getitemIdx A (0 + (i : ℤ)))) =
        .ok ((List.range ((c : ℤ)).toNat).map (fun i : ℕ =>
          mulData A.sampleWidth
            (qAdd (dbToFloat fg) (qMul (qDiv (qSub (dbToFloat tg) (dbToFloat fg)) ((c:ℤ) : ℚ))
              ((i : ℕ) : ℚ)))
            ((A.data.take ((i + 1) * k * A.channels)).drop (i * k * A.channels)))) := by
      refine list_mapM_ok ?_
      intro i hi
      rw [List.mem_range, Int.toNat_natCast] at hi
      rw [zero_add, nice_getitemIdx h hi]
      rfl
    rw [hmapM]
    simp only [except_map_ok, except_bind_ok]
    rw [hafter]
    simp only [except_bind_ok, spawn_data, mulData_nil, ite_self, List.nil_append,
      List.append_nil]
    refine ⟨_, rfl, ?_⟩
    have hxl : ∀ x ∈ (List.range ((c : ℤ)).toNat).map (fun i : ℕ =>
        mulData A.sampleWidth
          (qAdd (dbToFloat fg) (qMul (qDiv (qSub (dbToFloat tg) (dbToFloat fg)) ((c:ℤ) : ℚ))
            ((i : ℕ) : ℚ)))
          ((A.data.take ((i + 1) * k * A.channels)).drop (i * k * A.channels))),
        x.length = k * A.channels := by
      intro x hx
      rw [List.mem_map] at hx
      obtain ⟨i, hi, rfl⟩ := hx
      rw [List.mem_range, Int.toNat_natCast] at hi
      rw [mulData_length, nice_sub_length h (Nat.le_succ i) (by omega)]
      simp
    rw [flatten_length_const hxl, List.length_map, List.length_range, Int.toNat_natCast]
    ring
  · rw [if_neg hc100]
    have hfc0 : frameCountMs A (((0 : ℤ)) : ℚ) = 0 := by
      rw [frameCountMs_eq]
      push_cast
      ring
    have hfcc : frameCountMs A (((c : ℤ)) : ℚ) = (((c * k : ℕ) : ℤ) : ℚ) := by
      rw [frameCountMs_eq, hfr]
      push_cast
      field_simp
      ring
    have hsub : qSub (frameCountMs A (((c : ℤ)) : ℚ)) (frameCountMs A (((0 : ℤ)) : ℚ)) =
        (((c * k : ℕ) : ℤ) : ℚ) := by
      rw [qSub_eq, hfc0, hfcc, sub_zero]
    rw [hsub]
    rw [if_neg (by
      have h1 : (0 : ℤ) < ((c * k : ℕ) : ℤ) := by positivity
      have h2 : ((0:ℚ)) < (((c * k : ℕ) : ℤ) : ℚ) := by exact_mod_cast h1
      exact ne_of_gt h2)]
    rw [qTrunc_intCast, Int.toNat_natCast]
    rw [hafter]
    simp only [except_bind_ok, except_map_ok, spawn_data, mulData_nil, ite_self,
      List.nil_append, List.append_nil]
    refine ⟨_, rfl, ?_⟩
    have hxl : ∀ x ∈ (List.range (c * k)).map (fun i : ℕ =>
        mulData A.sampleWidth
          (qAdd (dbToFloat fg) (qMul (qDiv (qSub (dbToFloat tg) (dbToFloat fg))
            (((c * k : ℕ) : ℤ) : ℚ)) ((i : ℕ) : ℚ)))
          (getFrame A (qTrunc (qAdd (frameCountMs A (((0 : ℤ)) : ℚ)) ((i : ℕ) : ℚ))))),
        x.length = A.channels := by
      intro x hx
      rw [List.mem_map] at hx
      obtain ⟨i, hi, rfl⟩ := hx
      rw [List.mem_range] at hi
      have hgf : qTrunc (qAdd (frameCountMs A (((0 : ℤ)) : ℚ)) ((i : ℕ) : ℚ)) = (i : ℤ) := by
        rw [qAdd_eq, hfc0, zero_add]
        rw [show ((i : ℕ) : ℚ) = (((i : ℕ) : ℤ) : ℚ) by push_cast; ring]
        exact qTrunc_intCast _
      rw [mulData_length, hgf, nice_getFrame_length h hi]
    rw [flatten_length_const hxl, List.length_map, List.length_range]

/-! ### Synchronization and overlay lemmas -/

theorem sync_of_eq {a b : AudioSegment} (hch : a.channels = b.channels)
    (hfr : a.frameRate = b.frameRate) : sync a b = .ok (a, b) := by
  rw [sync]
  have h1 : set_channels a (max a.channels b.channels) = .ok a := by
    rw [set_channels, if_pos (by rw [← hch, max_self])]
  have h2 : set_channels b (max a.channels b.channels) = .ok b := by
    rw [set_channels, if_pos (by rw [hch, max_self])]
  rw [h1]
  simp only [except_bind_ok]
  rw [h2]
  simp only [except_bind_ok]
  have hsa : set_frame_rate a (max a.frameRate b.frameRate) = a := by
    rw [set_frame_rate, if_pos (by rw [← hfr, max_self])]
  have hsb : set_frame_rate b (max a.frameRate b.frameRate) = b := by
    rw [set_frame_rate, if_pos (by rw [hfr, max_self])]
  rw [hsa, hsb, if_pos ⟨rfl, rfl⟩]

theorem overlayLoop_spec (sw : ℕ) (d1 d2 : List ℤ) (loop : Bool)
    (hd : d2 ≠ [] ∨ loop = false) :
    ∀ fuel pos, pos ≤ d1.length → d1.length - pos < fuel →
    ∃ out, overlayLoop sw d1 d2 fuel pos loop = some out ∧
      out.length = d1.length - pos ∧
      (loop = false → out.drop (min d2.length (d1.length - pos)) =
        d1.drop (pos + min d2.length (d1.length - pos))) := by
  intro fuel
  induction fuel with
  | zero =>
    intro pos hpos hflt
    omega
  | succ f ih =>
    intro pos hpos hflt
    rw [overlayLoop]
    by_cases htr : d2.length ≥ d1.length - pos
    · rw [if_pos htr]
      have hchunk : (addData sw ((d1.drop pos).take (d1.length - pos))
          (d2.take (d1.length - pos))).length = d1.length - pos := by
        rw [addData, List.length_zipWith, List.length_take, List.length_take,
          List.length_drop]
        omega
      refine ⟨_, rfl, ?_, ?_⟩
      · rw [List.length_append, hchunk, List.length_drop]
        omega
      · intro hlf
        rw [min_eq_right htr]
        rw [List.drop_of_length_le (by rw [List.length_append, hchunk, List.length_drop]; omega)]
        rw [List.drop_of_length_le (by omega)]
    · rw [if_neg htr]
      push_neg at htr
      have hchunk : (addData sw ((d1.drop pos).take d2.length) d2).length = d2.length := by
        rw [addData, List.length_zipWith, List.length_take, List.length_drop]
        omega
      cases loop with
      | false =>
        simp only [Bool.false_eq_true, if_false]
        refine ⟨_, rfl, ?_, ?_⟩
        · rw [List.length_append, hchunk, List.length_drop]
          omega
        · intro _
          rw [min_eq_left (le_of_lt htr), List.drop_left' hchunk]
      | true =>
        rcases hd with hd | hd
        · have hm2 : 0 < d2.length := List.length_pos.mpr hd
          simp only [if_pos rfl]
          obtain ⟨out, hout, hlen, _⟩ := ih (pos + d2.length) (by omega) (by omega)
          rw [hout]
          refine ⟨_, rfl, ?_, ?_⟩
          · simp only [List.length_append, hchunk, hlen]
            omega
          · intro hlf
            cases hlf
        · cases hd

theorem overlay_nice {base other : AudioSegment} {L1 k : ℕ} (h : Nice base L1 k)
    (hch : base.channels = other.channels) (hfr : base.frameRate = other.frameRate)
    {p : ℕ} (hpL : p ≤ L1) (loop : Bool) (hterm : other.data ≠ [] ∨ loop = false) :
    ∃ t, overlay base other ((p : ℕ) : ℤ) loop = .ok t ∧
      t.data.length = base.data.length ∧
      lenMs t = (L1 : ℤ) ∧
      t.data.take (p * k * base.channels) = base.data.take (p * k * base.channels) ∧
      (loop = false →
        t.data.drop (p * k * base.channels +
          min other.data.length (base.data.length - p * k * base.channels)) =
        base.data.drop (p * k * base.channels +
          min other.data.length (base.data.length - p * k * base.channels))) := by
  have hch0 : 0 < base.channels := h.2.1
  have hlen := h.2.2.2.2.2
  have hpkc : p * k * base.channels ≤ base.data.length := by
    rw [hlen]
    exact Nat.mul_le_mul_right _ (Nat.mul_le_mul_right _ hpL)
  have htl : (base.data.take (p * k * base.channels)).length = p * k * base.channels :=
    List.length_take_of_le hpkc
  rw [overlay, sync_of_eq hch hfr]
  simp only [except_bind_ok]
  rw [nice_getitemSlice_head h hpL]
  simp only [except_bind_ok]
  rw [nice_getitemSlice_suffix h hpL]
  simp only [except_bind_ok, spawn_data]
  obtain ⟨out, hout, holen, hosuf⟩ := overlayLoop_spec base.sampleWidth
      (base.data.drop (p * k * base.channels)) other.data loop hterm
      ((base.data.drop (p * k * base.channels)).length + 1) 0 (Nat.zero_le _) (by omega)
  rw [hout]
  rw [List.length_drop] at holen
  refine ⟨_, rfl, ?_, ?_, ?_, ?_⟩
  · rw [spawn_data, List.length_append, htl, holen]
    omega
  · have hnice : Nice (spawn base (base.data.take (p * k * base.channels) ++ out)) L1 k := by
      refine nice_spawn h ?_
      rw [List.length_append, htl, holen, hlen]
      have : p * k * base.channels ≤ L1 * k * base.channels := by
        exact Nat.mul_le_mul_right _ (Nat.mul_le_mul_right _ hpL)
      omega
    exact nice_lenMs hnice
  · rw [spawn_data, List.take_left' htl]
  · intro hlf
    rw [spawn_data]
    rw [show p * k * base.channels +
        min other.data.length (base.data.length - p * k * base.channels) =
        (base.data.take (p * k * base.channels)).length +
        min other.data.length (base.data.length - p * k * base.channels) by rw [htl]]
    rw [List.drop_append]
    have hsuf := hosuf hlf
    rw [List.length_drop] at hsuf
    simp only [Nat.sub_zero, zero_add] at hsuf
    rw [hsuf, List.drop_drop, htl]

/-! ### Claim C1 -/

theorem clamp_zero (sw : ℕ) : clamp sw 0 = 0 := by
  rw [clamp]
  have h1 : (0 : ℤ) < 2 ^ (8 * sw - 1) := pow_pos (by norm_num) _
  have h2 : (0 : ℤ) ≤ 2 ^ (8 * sw - 1) - 1 := by omega
  rw [min_eq_right h2, max_eq_right (by omega)]

theorem mulData_zero (sw : ℕ) (l : List ℤ) :
    mulData sw 0 l = List.replicate l.length 0 := by
  rw [mulData, List.eq_replicate_iff]
  refine ⟨by rw [List.length_map], ?_⟩
  intro x hx
  rw [List.mem_map] at hx
  obtain ⟨y, _, rfl⟩ := hx
  rw [qMul_eq, zero_mul, Int.floor_zero, clamp_zero]

theorem nat_min_mul_right (a b c : ℕ) : min a b * c = min (a * c) (b * c) := by
  rcases le_total a b with h | h
  · rw [min_eq_left h, min_eq_left (Nat.mul_le_mul_right _ h)]
  · rw [min_eq_right h, min_eq_right (Nat.mul_le_mul_right _ h)]

theorem flatten_replicate_nil (n : ℕ) :
    (List.replicate n ([] : List ℤ)).flatten = [] := by
  induction n with
  | zero => simp
  | succ m ih => rw [List.replicate_succ, List.flatten_cons, List.nil_append, ih]

theorem byteSlice_frames {s : AudioSegment}
    (hfw : s.frameWidth = s.channels * s.sampleWidth) (hsw : 0 < s.sampleWidth)
    (halign : frameCountN s * s.channels = s.data.length) (fa fb : ℕ) :
    byteSlice s.data s.sampleWidth ((fa : ℤ) * s.frameWidth) ((fb : ℤ) * s.frameWidth) =
      (s.data.take (min fb (frameCountN s) * s.channels)).drop
        (min fa (frameCountN s) * s.channels) := by
  have hsw0 : ((s.sampleWidth : ℤ)) ≠ 0 := by exact_mod_cast hsw.ne'
  have hdiv : ∀ x : ℤ, Int.ediv (x * (s.sampleWidth : ℤ)) (s.sampleWidth : ℤ) = x := by
    intro x
    rw [show Int.ediv (x * (s.sampleWidth : ℤ)) (s.sampleWidth : ℤ) =
        x * (s.sampleWidth : ℤ) / (s.sampleWidth : ℤ) from rfl]
    exact Int.mul_ediv_cancel _ hsw0
  have hea : ∀ f : ℕ, Int.ediv ((f : ℤ) * s.frameWidth) s.sampleWidth =
      ((f * s.channels : ℕ) : ℤ) := by
    intro f
    rw [hfw]
    push_cast
    rw [show (f : ℤ) * ((s.channels : ℤ) * (s.sampleWidth : ℤ)) =
        ((f : ℤ) * (s.channels : ℤ)) * (s.sampleWidth : ℤ) by ring]
    exact hdiv _
  rw [byteSlice, hea, hea, pySlice, pyIndex, pyIndex]
  rw [if_neg (not_lt.mpr (by positivity : (0:ℤ) ≤ ((fa * s.channels : ℕ) : ℤ)))]
  rw [if_neg (not_lt.mpr (by positivity : (0:ℤ) ≤ ((fb * s.channels : ℕ) : ℤ)))]
  simp only [Int.toNat_natCast]
  rw [← halign, ← nat_min_mul_right, ← nat_min_mul_right]

theorem frameCountN_spawn {s : AudioSegment}
    (hfw : s.frameWidth = s.channels * s.sampleWidth) (hch : 0 < s.channels)
    (hsw : 0 < s.sampleWidth) (l : List ℤ) {m : ℕ} (hl : l.length = m * s.channels) :
    frameCountN (spawn s l) = m := by
  rw [frameCountN, byteLen, spawn, hl, hfw]
  have he : s.sampleWidth * (m * s.channels) = m * (s.channels * s.sampleWidth) := by
    ring
  rw [he, Nat.mul_div_cancel _ (Nat.mul_pos hch hsw)]

theorem getitemRange_spec {s : AudioSegment}
    (hfw : s.frameWidth = s.channels * s.sampleWidth)
    (hch : 0 < s.channels) (hsw : 0 < s.sampleWidth)
    (halign : frameCountN s * s.channels = s.data.length)
    {a b : ℤ} {sf ef : ℕ}
    (hpa : parsePos s a = (sf : ℤ)) (hpb : parsePos s b = (ef : ℤ)) (hse : sf ≤ ef) :
    getitemRange s a b =
      if ((((ef - sf) - (min ef (frameCountN s) - min sf (frameCountN s)) : ℕ)) : ℚ) >
          frameCountMs s 2
      then .error .tooManyMissingFrames
      else .ok (spawn s
        ((s.data.take (min ef (frameCountN s) * s.channels)).drop
          (min sf (frameCountN s) * s.channels) ++
         (List.replicate ((ef - sf) - (min ef (frameCountN s) - min sf (frameCountN s)))
           (List.replicate
             (min s.channels
               ((s.data.take (min ef (frameCountN s) * s.channels)).drop
                 (min sf (frameCountN s) * s.channels)).length) 0)).flatten)) := by
  have hchsw : 0 < s.channels * s.sampleWidth := Nat.mul_pos hch hsw
  have hminle : min sf (frameCountN s) ≤ min ef (frameCountN s) := by omega
  have hdlen : ((s.data.take (min ef (frameCountN s) * s.channels)).drop
      (min sf (frameCountN s) * s.channels)).length =
      (min ef (frameCountN s) - min sf (frameCountN s)) * s.channels := by
    rw [List.length_drop, List.length_take, ← halign]
    have h1 : min ef (frameCountN s) * s.channels ≤ frameCountN s * s.channels :=
      Nat.mul_le_mul_right _ (min_le_right _ _)
    rw [min_eq_left h1, ← Nat.sub_mul]
  have hc1 : (((min ef (frameCountN s) - min sf (frameCountN s)) * s.channels : ℕ) : ℤ) =
      (((min ef (frameCountN s) : ℕ) : ℤ) - ((min sf (frameCountN s) : ℕ) : ℤ)) *
        (s.channels : ℤ) := by
    push_cast [hminle]
    ring
  have hc2 : (((ef - sf) - (min ef (frameCountN s) - min sf (frameCountN s)) : ℕ) : ℤ) =
      ((ef : ℤ) - (sf : ℤ)) -
        (((min ef (frameCountN s) : ℕ) : ℤ) - ((min sf (frameCountN s) : ℕ) : ℤ)) := by
    push_cast [hse, hminle, (by omega : min ef (frameCountN s) - min sf (frameCountN s) ≤ ef - sf)]
    ring
  simp only [getitemRange, hpa, hpb]
  rw [byteSlice_frames hfw hsw halign sf ef]
  rw [hdlen, hfw]
  have he : (ef : ℤ) * ((s.channels * s.sampleWidth : ℕ) : ℤ) -
      (sf : ℤ) * ((s.channels * s.sampleWidth : ℕ) : ℤ) -
      (s.sampleWidth : ℤ) *
        ((((min ef (frameCountN s) - min sf (frameCountN s)) * s.channels : ℕ)) : ℤ) =
      ((((ef - sf) - (min ef (frameCountN s) - min sf (frameCountN s)) : ℕ)) : ℤ) *
        ((s.channels * s.sampleWidth : ℕ) : ℤ) := by
    rw [hc1, hc2]
    push_cast
    ring
  rw [he, Int.mul_fdiv_cancel _ (by exact_mod_cast hchsw.ne')]
  by_cases hm0 : (ef - sf) - (min ef (frameCountN s) - min sf (frameCountN s)) = 0
  · rw [hm0]
    simp only [Nat.cast_zero]
    rw [if_pos trivial]
    have hcap : ¬((0 : ℚ)) > frameCountMs s 2 := by
      rw [frameCountMs_eq]
      rw [not_lt]
      positivity
    rw [if_neg hcap]
    rw [List.replicate_zero, List.flatten_nil, List.append_nil]
  · rw [if_neg (by exact_mod_cast hm0 :
      ¬(((ef - sf) - (min ef (frameCountN s) - min sf (frameCountN s)) : ℕ) : ℤ) = 0)]
    by_cases hcap :
        ((((ef - sf) - (min ef (frameCountN s) - min sf (frameCountN s)) : ℕ) : ℚ)) >
          frameCountMs s 2
    · rw [if_pos (by exact_mod_cast hcap), if_pos hcap]
    · rw [if_neg (by exact_mod_cast hcap), if_neg hcap]
      have hsil : mulData s.sampleWidth 0
          (((s.data.take (min ef (frameCountN s) * s.channels)).drop
            (min sf (frameCountN s) * s.channels)).take
            (s.channels * s.sampleWidth / s.sampleWidth)) =
          List.replicate
            (min s.channels
              ((s.data.take (min ef (frameCountN s) * s.channels)).drop
                (min sf (frameCountN s) * s.channels)).length) 0 := by
        rw [Nat.mul_div_cancel _ hsw, mulData_zero, List.length_take, min_comm]
      rw [hdlen] at hsil
      rw [hsil, Int.toNat_natCast]

theorem flatten_replicate_replicate (n w : ℕ) (x : ℤ) :
    (List.replicate n (List.replicate w x)).flatten = List.replicate (n * w) x := by
  induction n with
  | zero => simp
  | succ m ih =>
    rw [List.replicate_succ, List.flatten_cons, ih, Nat.succ_mul, Nat.add_comm,
      List.replicate_add]

/-- C1: corrected.  For exact segments with equal channel counts, equal
sample widths and the same whole number `k` of frames per millisecond (hence
identical frame rates `1000 * k`, so `_sync` converts nothing) and exact
integral millisecond durations, appending with `crossfade = 0` concatenates
the raw data, and appending with `0 < c ≤ min(len a, len b)` produces a
segment of duration `len a + len b - c`.  The sample-width hypothesis keeps
the operands inside `audioop.add`'s frame-alignment domain.  (The claim as
stated over all segments is refuted by `C1_append_cex`: the crossfade
sub-segment can resolve to zero frames and the fade then divides by zero.) -/
theorem C1_append_spec {a b : AudioSegment} {La Lb k : ℕ}
    (ha : Nice a La k) (hb : Nice b Lb k) (hch : a.channels = b.channels)
    (hsweq : a.sampleWidth = b.sampleWidth) :
    append a b 0 = .ok (spawn a (a.data ++ b.data)) ∧
    (∀ c : ℕ, 0 < c → c ≤ La → c ≤ Lb →
      ∃ t, append a b ((c : ℕ) : ℤ) = .ok t ∧
        lenMs t = (La : ℤ) + (Lb : ℤ) - (c : ℤ)) := by
  have hfr : a.frameRate = b.frameRate := by rw [ha.2.2.2.1, hb.2.2.2.1]
  have hsync := sync_of_eq hch hfr
  constructor
  · rw [append, hsync]
    simp only [except_bind_ok]
    rw [if_pos trivial]
  · intro c hc hcLa hcLb
    have hk := ha.2.2.2.2.1
    have hchpos := ha.2.1
    rw [append, hsync]
    simp only [except_bind_ok]
    rw [if_neg (by exact_mod_cast hc.ne' : ¬((c : ℕ) : ℤ) = 0)]
    rw [nice_getitemSlice_from_neg ha hc hcLa]
    simp only [except_bind_ok]
    have hsub : (La - c) * k * a.channels + c * k * a.channels = La * k * a.channels := by
      rw [← Nat.add_mul, ← Nat.add_mul, Nat.sub_add_cancel hcLa]
    have hAnice : Nice (spawn a (a.data.drop ((La - c) * k * a.channels))) c k := by
      refine nice_spawn ha ?_
      rw [List.length_drop, ha.2.2.2.2.2]
      omega
    obtain ⟨D1, hf1, hD1len⟩ := nice_fade_xf hAnice hc (-120) 0 (by norm_num)
    rw [hf1]
    simp only [except_bind_ok]
    rw [nice_getitemSlice_head hb hcLb]
    simp only [except_bind_ok]
    have hBlen : (b.data.take (c * k * b.channels)).length = c * k * b.channels := by
      refine List.length_take_of_le ?_
      rw [hb.2.2.2.2.2]
      exact Nat.mul_le_mul_right _ (Nat.mul_le_mul_right _ hcLb)
    have hBnice : Nice (spawn b (b.data.take (c * k * b.channels))) c k :=
      nice_spawn hb hBlen
    obtain ⟨D2, hf2, hD2len⟩ := nice_fade_xf hBnice hc 0 (-120) (by norm_num)
    rw [hf2]
    simp only [except_bind_ok]
    have hf1nice : Nice (spawn (spawn a (a.data.drop ((La - c) * k * a.channels))) D1) c k :=
      nice_spawn hAnice hD1len
    have hD2pos : D2 ≠ [] := by
      have : 0 < D2.length := by
        rw [hD2len]
        have hbch : (spawn b (b.data.take (c * k * b.channels))).channels = b.channels := rfl
        rw [hbch, ← hch]
        positivity
      exact List.length_pos.mp this
    obtain ⟨txf, hov, hxlen, _, _, _⟩ :=
      @overlay_nice (spawn (spawn a (a.data.drop ((La - c) * k * a.channels))) D1)
        (spawn (spawn b (b.data.take (c * k * b.channels))) D2) c k hf1nice hch hfr 0
        (Nat.zero_le c) true (Or.inl hD2pos)
    rw [Nat.cast_zero] at hov
    rw [hov]
    simp only [except_bind_ok]
    rw [nice_getitemSlice_upto_neg ha hc hcLa]
    simp only [except_bind_ok]
    rw [nice_getitemSlice_suffix hb hcLb]
    simp only [except_bind_ok]
    refine ⟨_, rfl, ?_⟩
    have hxflen : txf.data.length = c * k * a.channels := by
      rw [hxlen, spawn_data, hD1len]
      rfl
    have htake : (a.data.take ((La - c) * k * a.channels)).length =
        (La - c) * k * a.channels := by
      refine List.length_take_of_le ?_
      rw [ha.2.2.2.2.2]
      exact Nat.mul_le_mul_right _ (Nat.mul_le_mul_right _ (Nat.sub_le _ _))
    have hdrop : (b.data.drop (c * k * b.channels)).length = (Lb - c) * k * b.channels := by
      rw [List.length_drop, hb.2.2.2.2.2]
      have h2 : (Lb - c) * k * b.channels + c * k * b.channels = Lb * k * b.channels := by
        rw [← Nat.add_mul, ← Nat.add_mul, Nat.sub_add_cancel hcLb]
      omega
    have hfinal : Nice (spawn a (a.data.take ((La - c) * k * a.channels) ++ txf.data ++
        b.data.drop (c * k * b.channels))) (La + Lb - c) k := by
      refine nice_spawn ha ?_
      rw [List.length_append, List.length_append, htake, hxflen, hdrop, ← hch]
      have h3 : (La - c) * k * a.channels + c * k * a.channels +
          (Lb - c) * k * a.channels = (La + Lb - c) * k * a.channels := by
        rw [← Nat.add_mul, ← Nat.add_mul, ← Nat.add_mul, ← Nat.add_mul]
        congr 2
        omega
      omega
    simp only [spawn_data]
    rw [nice_lenMs hfinal]
    omega

/-- C1 witness: the exact-duration hypotheses are satisfiable and give the
claimed duration law at a concrete input. -/
theorem C1_append_spec_witness :
    append segNice segNice 0 = .ok (spawn segNice (segNice.data ++ segNice.data)) ∧
    (∃ t, append segNice segNice ((1 : ℕ) : ℤ) = .ok t ∧
      lenMs t = ((2 : ℕ) : ℤ) + ((2 : ℕ) : ℤ) - ((1 : ℕ) : ℤ)) :=
  ⟨(C1_append_spec (show Nice segNice 2 1 by decide) (show Nice segNice 2 1 by decide)
      rfl rfl).1,
   (C1_append_spec (show Nice segNice 2 1 by decide) (show Nice segNice 2 1 by decide)
      rfl rfl).2 1 (by decide) (by decide) (by decide)⟩

/-- C1 counterexample: for two 600 Hz segments of reported duration 3 ms,
`append` with crossfade 1 ≤ min(len a, len b) raises ZeroDivisionError inside
the fade (the one-millisecond tail resolves to zero frames), so no result of
duration `len a + len b - c` exists. -/
theorem C1_append_cex : append seg600 seg600 1 = .error .zeroDivision := by
  decide

/-! ### Claims C2, C6, C7, C8 -/

/-- C2: corrected.  The full slice `s[:]` is the identity on segments with
consistent metadata, a whole number of frames per millisecond and an exact
integral millisecond duration.  (Over all segments the claim is refuted by
`C2_full_slice_cex`: duration rounding makes the resolved end byte fall short
of, or beyond, the buffer.) -/
theorem C2_full_slice {s : AudioSegment} {L k : ℕ} (h : Nice s L k) :
    getitemSlice s none none = .ok s := by
  have hL := nice_lenMs h
  have hlen := h.2.2.2.2.2
  rw [getitemSlice]
  have h1 : min ((none : Option ℤ).getD 0) (lenMs s) = (0 : ℤ) := by
    rw [hL]
    simp only [Option.getD_none]
    exact min_eq_left (by positivity)
  have h2 : min ((none : Option ℤ).getD (lenMs s)) (lenMs s) = ((L : ℕ) : ℤ) := by
    rw [hL]
    simp only [Option.getD_none, min_self]
  rw [h1, h2]
  have hz : parsePos s 0 = ((0 : ℕ) : ℤ) * k := by
    rw [nice_parsePos_nonneg h le_rfl]
    simp
  have hq : parsePos s (L : ℤ) = ((L : ℕ) : ℤ) * k :=
    nice_parsePos_nonneg h (by positivity)
  rw [nice_getitemRange h hz hq (Nat.zero_le _) le_rfl]
  simp only [Nat.zero_mul, List.drop_zero]
  rw [List.take_of_length_le (le_of_eq hlen)]
  rfl

/-- C2 witness: a well-formed 1000 Hz segment satisfies the hypotheses and
its full slice is itself. -/
theorem C2_full_slice_witness : getitemSlice segNice none none = .ok segNice :=
  C2_full_slice (show Nice segNice 2 1 by decide)

/-- C2 counterexample: a 2-frame segment at 600 frames per second reports a
duration of 3 ms, but its full slice holds a single frame: the slice has
different raw data and a different duration, refuting the claim as stated. -/
theorem C2_full_slice_cex :
    getitemSlice seg600 none none = .ok (spawn seg600 [7]) ∧
    lenMs seg600 = 3 ∧ lenMs (spawn seg600 [7]) = 2 ∧ seg600.data = [7, 9] := by
  decide

/-- C6: corrected.  `set_channels` at the current channel count returns the
very same segment, and any conversion other than mono↔stereo fails — but with
an untyped `UnboundLocalError` (the local `fn` is read before assignment),
not the typed `UnsupportedChannelConversion` the spec names, which appears
nowhere in the source. -/
theorem C6_set_channels_spec (s : AudioSegment) (ch : ℕ) (h1 : ch ≠ s.channels)
    (h2 : ¬(ch = 2 ∧ s.channels = 1)) (h3 : ¬(ch = 1 ∧ s.channels = 2)) :
    set_channels s s.channels = .ok s ∧
    set_channels s ch = .error .unboundLocalError := by
  constructor
  · rw [set_channels, if_pos rfl]
  · rw [set_channels, if_neg h1, if_neg h2, if_neg h3]

/-- C6 witness: requesting 3 channels on a mono segment. -/
theorem C6_set_channels_spec_witness :
    set_channels segNice segNice.channels = .ok segNice ∧
    set_channels segNice 3 = .error .unboundLocalError :=
  C6_set_channels_spec segNice 3 (by decide) (by decide) (by decide)

/-- C6 counterexample: the conversion to 3 channels raises the untyped
unbound-local error, not the typed `UnsupportedChannelConversion` the claim
names. -/
theorem C6_set_channels_cex :
    set_channels segNice 3 = .error .unboundLocalError ∧
    Err.unboundLocalError ≠ Err.unsupportedChannelConversion := by
  decide

/-- C7: corrected.  The metadata construction path stores the buffer and the
metadata verbatim, with no validation at all: a segment whose byte length is
not a multiple of its frame width is constructible and no `MalformedInput`
error exists in the source. -/
theorem C7_construction_unchecked :
    (ofMetadata [5] 2 1 1000 2).data = [5] ∧
    (ofMetadata [5] 2 1 1000 2).frameWidth = 2 ∧
    ¬ byteLen (ofMetadata [5] 2 1 1000 2) % (ofMetadata [5] 2 1 1000 2).frameWidth = 0 := by
  decide

/-- C7 counterexample: construction from a buffer of 1 byte with frame width
2 succeeds, so the claimed invariant `len(data) % frame_width == 0` does not
hold of every constructed segment. -/
theorem C7_construction_cex :
    byteLen (ofMetadata [5] 2 1 1000 2) % (ofMetadata [5] 2 1 1000 2).frameWidth = 1 := by
  decide

/-- C8: corrected.  A negative fade duration raises `InvalidDuration`
provided the zero-gain identity short-circuit does not fire first and not all
three of start/stop/duration were passed (which raises `TypeError` first).
The unconditional claim is refuted by `C8_fade_negative_duration_cex`. -/
theorem C8_fade_negative_duration (s : AudioSegment) (tg fg : ℚ)
    (start stop : Option MsBound) (d : ℤ) (hd : d < 0)
    (hg : ¬(tg = 0 ∧ fg = 0)) (hn : start = none ∨ stop = none) :
    fade s tg fg start stop (some d) = .error .invalidDuration := by
  rw [fade]
  rw [if_neg (by
    rintro ⟨hs, he, _⟩
    rcases hn with h | h
    · exact hs h
    · exact he h)]
  rw [if_neg hg]
  simp only [decide_eq_true_eq]
  rw [if_pos (by simpa using hd)]

/-- C8 witness: a negative duration with a nonzero target gain raises
`InvalidDuration`. -/
theorem C8_fade_negative_duration_witness :
    fade segNice (-120) 0 none none (some (-5)) = .error .invalidDuration :=
  C8_fade_negative_duration segNice (-120) 0 none none (-5) (by decide) (by norm_num)
    (Or.inl rfl)

/-- C8 counterexample: with both gains zero, the identity short-circuit runs
before the duration check, so `fade(duration=-5)` returns the segment instead
of raising `InvalidDuration`. -/
theorem C8_fade_negative_duration_cex :
    fade segNice 0 0 none none (some (-5)) = .ok segNice := by
  decide

/-- C3: corrected.  Under alignment hypotheses on the segment and with `m`
the number of missing frames of the resolved range, `TooManyMissingFrames`
is raised iff `m` exceeds 2 milliseconds' worth of frames — that half of the
claim is right — but the padding that fills the gap is plain zero samples:
the source computes `audioop.mul(data[:frame_width], sw, 0)`, i.e. the
FIRST frame of the slice scaled by the factor 0, which is all zero bytes,
not an attenuated copy of the last available frame. -/
theorem C3_padding_policy {s : AudioSegment}
    (hfw : s.frameWidth = s.channels * s.sampleWidth)
    (hch : 0 < s.channels) (hsw : 0 < s.sampleWidth)
    (halign : frameCountN s * s.channels = s.data.length)
    {a b : ℤ} {sf ef : ℕ}
    (hpa : parsePos s a = (sf : ℤ)) (hpb : parsePos s b = (ef : ℤ)) (hse : sf ≤ ef) :
    ((getitemRange s a b = .error .tooManyMissingFrames) ↔
      ((((ef - sf) - (min ef (frameCountN s) - min sf (frameCountN s)) : ℕ) : ℚ) >
        frameCountMs s 2)) ∧
    (¬ ((((ef - sf) - (min ef (frameCountN s) - min sf (frameCountN s)) : ℕ) : ℚ) >
        frameCountMs s 2) →
      getitemRange s a b = .ok (spawn s
        ((s.data.take (min ef (frameCountN s) * s.channels)).drop
          (min sf (frameCountN s) * s.channels) ++
         List.replicate
           (((ef - sf) - (min ef (frameCountN s) - min sf (frameCountN s))) *
             min s.channels
               ((s.data.take (min ef (frameCountN s) * s.channels)).drop
                 (min sf (frameCountN s) * s.channels)).length) 0))) := by
  have hspec := getitemRange_spec hfw hch hsw halign hpa hpb hse
  constructor
  · constructor
    · intro herr
      by_contra hcap
      rw [hspec, if_neg hcap] at herr
      simp at herr
    · intro hcap
      rw [hspec, if_pos hcap]
  · intro hcap
    rw [hspec, if_neg hcap, flatten_replicate_replicate]

/-- C3 witness: on a 12-frame 8000 Hz segment the range `[0ms, 2ms)` resolves
to frames `[0, 16)`, leaving 4 missing frames (within the 16-frame 2 ms cap),
and the result is the full data followed by 4 zero frames. -/
theorem C3_padding_policy_witness :
    getitemRange seg8000 0 2 =
      .ok (spawn seg8000
        ([1, 2, 3, 4, 5, 6, 7, 8, 9, 10, 11, 12] ++ List.replicate 4 0)) := by
  have h := @C3_padding_policy seg8000 (by decide) (by decide) (by decide) (by decide)
      0 2 0 16 (by decide) (by decide) (by decide)
  rw [h.2 (by decide)]
  decide

/-- C3 counterexample: the padding appended by the slice `seg8000[0:2]` is
plain zero bytes even though no sample of the source segment is zero (in
particular the last available frame is `12`), refuting the claim that the
gap is filled with attenuated copies of the last available frame rather
than plain zero bytes. -/
theorem C3_padding_cex :
    getitemSlice seg8000 (some 0) (some 2) =
      .ok (spawn seg8000 (seg8000.data ++ List.replicate 4 0)) ∧
    (0 : ℤ) ∉ seg8000.data := by decide

/-- C10: corrected.  A non-negative single-index access whose resolved start
frame is at or beyond the frame count does slice an empty data range and the
padding contributes no bytes, so an empty-data segment is returned — but
only when the frame rate is at least 500 Hz.  Below that the one-millisecond
window itself exceeds the 2 ms missing-frame cap and the access raises
`TooManyMissingFrames` instead of returning an empty segment. -/
theorem C10_index_past_end {s : AudioSegment}
    (hfw : s.frameWidth = s.channels * s.sampleWidth)
    (hch : 0 < s.channels) (hsw : 0 < s.sampleWidth)
    (halign : frameCountN s * s.channels = s.data.length)
    (hfr : 500 ≤ s.frameRate) {i : ℤ} (hi : 0 ≤ i)
    (hbeyond : (frameCountN s : ℤ) ≤ parsePos s i) :
    getitemIdx s i = .ok (spawn s []) := by
  have hfr0 : (0:ℚ) < (s.frameRate : ℚ) := by
    have h : 0 < s.frameRate := by omega
    exact_mod_cast h
  have hiq : (0:ℚ) ≤ (i:ℚ) := by exact_mod_cast hi
  have hx0 : (0:ℚ) ≤ (i:ℚ) * (s.frameRate:ℚ) / 1000 := by positivity
  have hi1q : (0:ℚ) ≤ ((i+1 : ℤ):ℚ) := by push_cast; linarith
  have hx1 : (0:ℚ) ≤ ((i+1 : ℤ):ℚ) * (s.frameRate:ℚ) / 1000 := by positivity
  have hpi : parsePos s i = ⌊(i:ℚ) * (s.frameRate:ℚ) / 1000⌋ := by
    simp only [parsePos]
    rw [if_neg (not_lt.mpr hi), frameCountMs_eq]
    exact qTrunc_eq_floor hx0
  have hpi1 : parsePos s (i+1) = ⌊((i+1 : ℤ):ℚ) * (s.frameRate:ℚ) / 1000⌋ := by
    simp only [parsePos]
    rw [if_neg (by omega : ¬ (i+1) < 0), frameCountMs_eq]
    exact qTrunc_eq_floor hx1
  have hsf0 : 0 ≤ parsePos s i :=
    le_trans (by exact_mod_cast Nat.zero_le (frameCountN s)) hbeyond
  have hef0 : 0 ≤ parsePos s (i+1) := by
    rw [hpi1]
    exact Int.floor_nonneg.mpr hx1
  obtain ⟨sf, hsf⟩ : ∃ sf : ℕ, parsePos s i = (sf : ℤ) :=
    ⟨(parsePos s i).toNat, (Int.toNat_of_nonneg hsf0).symm⟩
  obtain ⟨ef, hef⟩ : ∃ ef : ℕ, parsePos s (i+1) = (ef : ℤ) :=
    ⟨(parsePos s (i+1)).toNat, (Int.toNat_of_nonneg hef0).symm⟩
  have hse : sf ≤ ef := by
    have hmono : parsePos s i ≤ parsePos s (i+1) := by
      rw [hpi, hpi1]
      apply Int.floor_le_floor
      have h1 : (i:ℚ) ≤ ((i+1 : ℤ):ℚ) := by push_cast; linarith
      have h2 : (0:ℚ) ≤ (s.frameRate:ℚ) := le_of_lt hfr0
      have h3 := mul_le_mul_of_nonneg_right h1 h2
      linarith
    rw [hsf, hef] at hmono
    exact_mod_cast hmono
  have hn : ((s.frameRate / 1000 : ℕ) : ℤ) = ⌊(s.frameRate:ℚ) / 1000⌋ := by
    rw [show ((1000:ℚ)) = ((1000:ℕ):ℚ) from by norm_num,
      Rat.floor_natCast_div_natCast]
    exact Int.ofNat_tdiv _ _
  have hbound : (ef : ℤ) ≤ (sf : ℤ) + ((s.frameRate / 1000 : ℕ) : ℤ) + 1 := by
    have hsplit : ((i+1 : ℤ):ℚ) * (s.frameRate:ℚ) / 1000 =
        (i:ℚ) * (s.frameRate:ℚ) / 1000 + (s.frameRate:ℚ) / 1000 := by
      push_cast
      ring
    have h1 : (ef : ℤ) =
        ⌊(i:ℚ) * (s.frameRate:ℚ) / 1000 + (s.frameRate:ℚ) / 1000⌋ := by
      rw [← hef, hpi1, hsplit]
    have h2 := Int.le_floor_add_floor ((i:ℚ) * (s.frameRate:ℚ) / 1000)
      ((s.frameRate:ℚ) / 1000)
    rw [← h1, ← hpi, hsf, ← hn] at h2
    omega
  have hruntime : ef - sf ≤ s.frameRate / 1000 + 1 := by omega
  have hfcsf : frameCountN s ≤ sf := by
    rw [hsf] at hbeyond
    exact_mod_cast hbeyond
  have hminsf : min sf (frameCountN s) = frameCountN s := min_eq_right hfcsf
  have hminef : min ef (frameCountN s) = frameCountN s :=
    min_eq_right (le_trans hfcsf hse)
  rw [getitemIdx, getitemRange_spec hfw hch hsw halign hsf hef hse, hminsf, hminef,
    Nat.sub_self, Nat.sub_zero]
  have hd0 : (s.data.take (frameCountN s * s.channels)).drop
      (frameCountN s * s.channels) = ([] : List ℤ) := by
    apply List.drop_eq_nil_of_le
    rw [List.length_take]
    exact min_le_left _ _
  rw [hd0]
  have hcap : ¬ (((ef - sf : ℕ)):ℚ) > frameCountMs s 2 := by
    rw [not_lt, frameCountMs_eq]
    have h1 : ((ef - sf : ℕ):ℚ) ≤ ((s.frameRate / 1000 + 1 : ℕ):ℚ) := by
      exact_mod_cast hruntime
    have h2 : ((s.frameRate / 1000 + 1 : ℕ):ℚ) * 500 ≤ (s.frameRate:ℚ) := by
      exact_mod_cast (by omega : (s.frameRate / 1000 + 1) * 500 ≤ s.frameRate)
    rw [show (2:ℚ) * (s.frameRate:ℚ) / 1000 = (s.frameRate:ℚ) / 500 from by ring]
    rw [le_div_iff₀ (by norm_num : (0:ℚ) < 500)]
    calc ((ef - sf : ℕ):ℚ) * 500 ≤ ((s.frameRate / 1000 + 1 : ℕ):ℚ) * 500 :=
          mul_le_mul_of_nonneg_right h1 (by norm_num)
      _ ≤ (s.frameRate:ℚ) := h2
  rw [if_neg hcap]
  simp [flatten_replicate_nil]

/-- C10 witness: on an empty 500 Hz segment the index `5` resolves past the
(zero) frame count and the access succeeds with empty data. -/
theorem C10_index_past_end_witness :
    getitemIdx seg500e 5 = .ok (spawn seg500e []) :=
  @C10_index_past_end seg500e (by decide) (by decide) (by decide) (by decide)
    (by decide) 5 (by decide) (by decide)

/-- C10 counterexample: on an empty 250 Hz segment the index `3` is
non-negative and resolves at the (zero) frame count, yet the access raises
`TooManyMissingFrames` instead of returning an empty segment, because one
millisecond at 250 Hz is more than the 2 ms cap of half a frame. -/
theorem C10_index_past_end_cex :
    getitemIdx seg250e 3 = .error .tooManyMissingFrames ∧
    (frameCountN seg250e : ℤ) ≤ parsePos seg250e 3 := by decide

/-- C9: corrected.  A single-index access `s[i]` with `0 <= i < len(s)` has
millisecond length 1 provided the frame rate is at least 2000 Hz.  At lower
rates the law fails: the truncating frame resolver and the rounding length
can make `len(s[i])` be 0 (or much larger than 1) for valid indices. -/
theorem C9_single_index_len {s : AudioSegment}
    (hfw : s.frameWidth = s.channels * s.sampleWidth)
    (hch : 0 < s.channels) (hsw : 0 < s.sampleWidth)
    (halign : frameCountN s * s.channels = s.data.length)
    (hfr : 2000 ≤ s.frameRate) {i : ℤ} (hi : 0 ≤ i) (hilt : i < lenMs s) :
    ∃ t, getitemIdx s i = .ok t ∧ lenMs t = 1 := by
  have hfr0 : (0:ℚ) < (s.frameRate : ℚ) := by
    have h : 0 < s.frameRate := by omega
    exact_mod_cast h
  have hfrq : (2000:ℚ) ≤ (s.frameRate:ℚ) := by exact_mod_cast hfr
  have hiq : (0:ℚ) ≤ (i:ℚ) := by exact_mod_cast hi
  have hx0 : (0:ℚ) ≤ (i:ℚ) * (s.frameRate:ℚ) / 1000 := by positivity
  have hi1q : (0:ℚ) ≤ ((i+1 : ℤ):ℚ) := by push_cast; linarith
  have hx1 : (0:ℚ) ≤ ((i+1 : ℤ):ℚ) * (s.frameRate:ℚ) / 1000 := by positivity
  have hsplit : ((i+1 : ℤ):ℚ) * (s.frameRate:ℚ) / 1000 =
      (i:ℚ) * (s.frameRate:ℚ) / 1000 + (s.frameRate:ℚ) / 1000 := by
    push_cast
    ring
  have hpi : parsePos s i = ⌊(i:ℚ) * (s.frameRate:ℚ) / 1000⌋ := by
    simp only [parsePos]
    rw [if_neg (not_lt.mpr hi), frameCountMs_eq]
    exact qTrunc_eq_floor hx0
  have hpi1 : parsePos s (i+1) = ⌊((i+1 : ℤ):ℚ) * (s.frameRate:ℚ) / 1000⌋ := by
    simp only [parsePos]
    rw [if_neg (by omega : ¬ (i+1) < 0), frameCountMs_eq]
    exact qTrunc_eq_floor hx1
  have hsf0 : 0 ≤ parsePos s i := by
    rw [hpi]
    exact Int.floor_nonneg.mpr hx0
  have hef0 : 0 ≤ parsePos s (i+1) := by
    rw [hpi1]
    exact Int.floor_nonneg.mpr hx1
  obtain ⟨sf, hsf⟩ : ∃ sf : ℕ, parsePos s i = (sf : ℤ) :=
    ⟨(parsePos s i).toNat, (Int.toNat_of_nonneg hsf0).symm⟩
  obtain ⟨ef, hef⟩ : ∃ ef : ℕ, parsePos s (i+1) = (ef : ℤ) :=
    ⟨(parsePos s (i+1)).toNat, (Int.toNat_of_nonneg hef0).symm⟩
  have hse : sf ≤ ef := by
    have hmono : parsePos s i ≤ parsePos s (i+1) := by
      rw [hpi, hpi1]
      apply Int.floor_le_floor
      have h1 : (i:ℚ) ≤ ((i+1 : ℤ):ℚ) := by push_cast; linarith
      have h2 : (0:ℚ) ≤ (s.frameRate:ℚ) := le_of_lt hfr0
      have h3 := mul_le_mul_of_nonneg_right h1 h2
      linarith
    rw [hsf, hef] at hmono
    exact_mod_cast hmono
  have hn : ((s.frameRate / 1000 : ℕ) : ℤ) = ⌊(s.frameRate:ℚ) / 1000⌋ := by
    rw [show ((1000:ℚ)) = ((1000:ℕ):ℚ) from by norm_num,
      Rat.floor_natCast_div_natCast]
    exact Int.ofNat_tdiv _ _
  have hfloor1 : (ef : ℤ) =
      ⌊(i:ℚ) * (s.frameRate:ℚ) / 1000 + (s.frameRate:ℚ) / 1000⌋ := by
    rw [← hef, hpi1, hsplit]
  have hbound : (ef : ℤ) ≤ (sf : ℤ) + ((s.frameRate / 1000 : ℕ) : ℤ) + 1 := by
    have h2 := Int.le_floor_add_floor ((i:ℚ) * (s.frameRate:ℚ) / 1000)
      ((s.frameRate:ℚ) / 1000)
    rw [← hfloor1, ← hpi, hsf, ← hn] at h2
    omega
  have hlow : (sf : ℤ) + ((s.frameRate / 1000 : ℕ) : ℤ) ≤ (ef : ℤ) := by
    have h2 := Int.le_floor_add ((i:ℚ) * (s.frameRate:ℚ) / 1000)
      ((s.frameRate:ℚ) / 1000)
    rw [← hfloor1, ← hpi, hsf, ← hn] at h2
    exact h2
  have hFdvd : s.frameRate % 1000 = 0 →
      (ef : ℤ) = (sf : ℤ) + ((s.frameRate / 1000 : ℕ) : ℤ) := by
    intro hr0
    obtain ⟨c, hc⟩ : ∃ c, s.frameRate = 1000 * c := ⟨s.frameRate / 1000, by omega⟩
    have hcn : s.frameRate / 1000 = c := by omega
    have hrq : (s.frameRate:ℚ) / 1000 = ((c:ℤ):ℚ) := by
      rw [hc]
      push_cast
      ring
    rw [hfloor1, hrq, Int.floor_add_int, ← hpi, hsf, hcn]
  have hlen_ub : ((lenMs s : ℤ):ℚ) ≤
      1000 * (frameCountN s : ℚ) / (s.frameRate:ℚ) + 1/2 := by
    rw [lenMs_eq]
    exact pyRound_le _
  have hile : (i:ℚ) + 1 ≤ ((lenMs s : ℤ):ℚ) := by
    exact_mod_cast (by omega : i + 1 ≤ lenMs s)
  have hiub : (i:ℚ) ≤ 1000 * (frameCountN s : ℚ) / (s.frameRate:ℚ) - 1/2 := by
    linarith
  have hxub : (i:ℚ) * (s.frameRate:ℚ) / 1000 ≤
      (frameCountN s : ℚ) - (s.frameRate:ℚ) / 2000 := by
    have hm := mul_le_mul_of_nonneg_right hiub
      (by positivity : (0:ℚ) ≤ (s.frameRate:ℚ) / 1000)
    have heq : (1000 * (frameCountN s : ℚ) / (s.frameRate:ℚ) - 1/2) *
        ((s.frameRate:ℚ) / 1000) = (frameCountN s : ℚ) - (s.frameRate:ℚ) / 2000 := by
      field_simp
      ring
    rw [heq] at hm
    calc (i:ℚ) * (s.frameRate:ℚ) / 1000
        = (i:ℚ) * ((s.frameRate:ℚ) / 1000) := by ring
      _ ≤ _ := hm
  have hxub2 : (i:ℚ) * (s.frameRate:ℚ) / 1000 ≤
      (((frameCountN s : ℤ) - 1 : ℤ) : ℚ) := by
    have h1 : (1:ℚ) ≤ (s.frameRate:ℚ) / 2000 := by
      rw [le_div_iff₀ (by norm_num : (0:ℚ) < 2000)]
      linarith
    push_cast
    linarith
  have hsflt : sf < frameCountN s := by
    have h1 : (sf : ℤ) ≤ (frameCountN s : ℤ) - 1 := by
      rw [← hsf, hpi]
      calc ⌊(i:ℚ) * (s.frameRate:ℚ) / 1000⌋
          ≤ ⌊(((frameCountN s : ℤ) - 1 : ℤ) : ℚ)⌋ := Int.floor_le_floor hxub2
        _ = (frameCountN s : ℤ) - 1 := Int.floor_intCast _
    omega
  have hminsf : min sf (frameCountN s) = sf := min_eq_left hsflt.le
  have hcap : ¬ ((((ef - sf) - (min ef (frameCountN s) - sf) : ℕ)):ℚ) >
      frameCountMs s 2 := by
    rw [not_lt, frameCountMs_eq]
    have h2 : (((ef - sf) - (min ef (frameCountN s) - sf) : ℕ):ℚ) * 500 ≤
        (s.frameRate:ℚ) := by
      exact_mod_cast
        (by omega : ((ef - sf) - (min ef (frameCountN s) - sf)) * 500 ≤ s.frameRate)
    rw [show (2:ℚ) * (s.frameRate:ℚ) / 1000 = (s.frameRate:ℚ) / 500 from by ring]
    rw [le_div_iff₀ (by norm_num : (0:ℚ) < 500)]
    exact h2
  have hdlen : ((s.data.take (min ef (frameCountN s) * s.channels)).drop
      (sf * s.channels)).length = (min ef (frameCountN s) - sf) * s.channels := by
    rw [List.length_drop, List.length_take, ← halign]
    have h1 : min ef (frameCountN s) * s.channels ≤ frameCountN s * s.channels :=
      Nat.mul_le_mul_right _ (min_le_right _ _)
    rw [min_eq_left h1, ← Nat.sub_mul]
  have hfinal : ∀ D : List ℤ, D.length = (ef - sf) * s.channels →
      lenMs (spawn s D) = 1 := by
    intro D hD
    have hfc : frameCountN (spawn s D) = ef - sf := frameCountN_spawn hfw hch hsw D hD
    have hfr_eq : (spawn s D).frameRate = s.frameRate := rfl
    rw [lenMs_eq, hfc, hfr_eq]
    apply pyRound_eq_one
    · rw [lt_div_iff₀ hfr0]
      have hlo : s.frameRate < 2000 * (ef - sf) := by omega
      have hloq : (s.frameRate:ℚ) < 2000 * ((ef - sf : ℕ):ℚ) := by exact_mod_cast hlo
      linarith
    · rw [div_lt_iff₀ hfr0]
      have hup : 2000 * (ef - sf) < 3 * s.frameRate := by
        rcases Nat.eq_zero_or_pos (s.frameRate % 1000) with hr0 | hr0
        · have h3 := hFdvd hr0
          omega
        · omega
      have hupq : 2000 * ((ef - sf : ℕ):ℚ) < 3 * (s.frameRate:ℚ) := by
        exact_mod_cast hup
      linarith
  rw [getitemIdx, getitemRange_spec hfw hch hsw halign hsf hef hse, hminsf,
    if_neg hcap]
  refine ⟨_, rfl, ?_⟩
  apply hfinal
  rw [List.length_append, hdlen, flatten_replicate_replicate, List.length_replicate]
  by_cases hcase : ef ≤ frameCountN s
  · rw [min_eq_left hcase]
    simp [Nat.sub_self]
  · push_neg at hcase
    rw [min_eq_right (le_of_lt hcase)]
    have hchle : s.channels ≤ (frameCountN s - sf) * s.channels :=
      Nat.le_mul_of_pos_left _ (by omega)
    rw [min_eq_left hchle, ← Nat.add_mul]
    have hsum : (frameCountN s - sf) + ((ef - sf) - (frameCountN s - sf)) = ef - sf := by
      omega
    rw [hsum]

/-- C9 witness: on a 12-frame 8000 Hz segment, index `0` is a valid
millisecond index (`len = 2`) and `s[0]` has millisecond length 1. -/
theorem C9_single_index_len_witness :
    ∃ t, getitemIdx seg8000 0 = .ok t ∧ lenMs t = 1 :=
  @C9_single_index_len seg8000 (by decide) (by decide) (by decide) (by decide)
    (by decide) 0 (by decide) (by decide)

/-- C9 counterexample: on a one-frame 250 Hz segment the index `0` is valid
(`len = 4`) yet `s[0]` is an empty segment of millisecond length 0, because
the truncating resolver maps the whole window `[0ms, 1ms)` to zero frames. -/
theorem C9_single_index_len_cex :
    getitemIdx seg250 0 = .ok (spawn seg250 []) ∧
    lenMs (spawn seg250 []) = 0 ∧ 0 < lenMs seg250 := by decide

/-- C5: corrected.  For exact base segments whose channel count, frame rate
and sample width all equal the other segment's (so `_sync` converts nothing
and `audioop.add` receives equally-aligned fragments) and a whole-millisecond
position within the base, `overlay` succeeds and the claim holds: the bytes
before the position are the base's, everything beyond the (possibly looped,
truncated) extent of `other` is the base's, and the result keeps the base's
millisecond duration.  In general the claim fails because `overlay`
re-slices the base by milliseconds, and the truncating resolver can drop
base frames (see the counterexample). -/
theorem C5_overlay_spec {base other : AudioSegment} {L1 k : ℕ} (h : Nice base L1 k)
    (hch : base.channels = other.channels) (hfr : base.frameRate = other.frameRate)
    (hsweq : base.sampleWidth = other.sampleWidth)
    {p : ℕ} (hpL : p ≤ L1) (loop : Bool) (hterm : other.data ≠ [] ∨ loop = false) :
    ∃ t, overlay base other ((p : ℕ) : ℤ) loop = .ok t ∧
      lenMs t = lenMs base ∧
      t.data.take (p * k * base.channels) = base.data.take (p * k * base.channels) ∧
      (loop = false →
        t.data.drop (p * k * base.channels +
          min other.data.length (base.data.length - p * k * base.channels)) =
        base.data.drop (p * k * base.channels +
          min other.data.length (base.data.length - p * k * base.channels))) := by
  obtain ⟨t, hok, hlen, hms, hpre, hsuf⟩ := overlay_nice h hch hfr hpL loop hterm
  exact ⟨t, hok, by rw [hms, nice_lenMs h], hpre, hsuf⟩

/-- C5 witness: overlaying a one-frame segment onto a two-frame 1000 Hz
segment at position 1 ms succeeds, preserves the duration, and keeps the
base's bytes outside the mixed window. -/
theorem C5_overlay_spec_witness :
    ∃ t, overlay segNice segNiceb ((1 : ℕ) : ℤ) false = .ok t ∧
      lenMs t = lenMs segNice ∧
      t.data.take (1 * 1 * segNice.channels) =
        segNice.data.take (1 * 1 * segNice.channels) ∧
      (false = false →
        t.data.drop (1 * 1 * segNice.channels +
          min segNiceb.data.length (segNice.data.length - 1 * 1 * segNice.channels)) =
        segNice.data.drop (1 * 1 * segNice.channels +
          min segNiceb.data.length (segNice.data.length - 1 * 1 * segNice.channels))) :=
  @C5_overlay_spec segNice segNiceb 2 1 (by decide) (by decide) (by decide)
    (by decide) 1 (by decide) false (Or.inr rfl)

/-- C5 counterexample: at 600 Hz the millisecond re-slicing inside `overlay`
drops the base's second frame: the result of overlaying at position 0 has
only one (mixed) frame, its millisecond duration is 2 while the post-sync
base (unchanged by sync here) lasts 3 ms, and the base byte beyond the
other's extent (`9`) is gone. -/
theorem C5_overlay_spec_cex :
    overlay seg600 seg600b 0 false = .ok (spawn seg600 [12]) ∧
    lenMs (spawn seg600 [12]) = 2 ∧ lenMs seg600 = 3 ∧
    sync seg600 seg600b = .ok (seg600, seg600b) := by decide

/-- Gain-formula bridge: the incremental `scale_step * i` of the source is
the interpolation `i * delta / steps` of the spec, as rational algebra. -/
theorem fadeGain_comm (fp dl q i : ℚ) :
    qAdd fp (qMul (qDiv dl q) i) = qAdd fp (qDiv (qMul i dl) q) := by
  rw [qAdd_eq, qAdd_eq, qMul_eq, qMul_eq, qDiv_eq, qDiv_eq]
  ring

/-- C4: confirmed.  For a fade call with a resolved in-range window
`[st, en)` on a positive frame rate, the ramp is exactly the spec's: coarse
one-gain-per-millisecond stepping with `en - st` steps when the duration
exceeds 100 ms, otherwise precise one-gain-per-frame stepping, and step `i`
scales by `from_power + i * (to_power - from_power) / steps` in linear
amplitude space (`rampSpec`). -/
theorem C4_fade_ramp {s : AudioSegment} {toGain fromGain : ℚ} {st en : ℤ}
    (hfr : 0 < s.frameRate) (hst0 : 0 ≤ st) (hstL : st ≤ lenMs s)
    (hen0 : 0 ≤ en) (henL : en ≤ lenMs s) (hwin : st < en)
    (hg : ¬(toGain = 0 ∧ fromGain = 0)) :
    fade s toGain fromGain (some (.fin st)) (some (.fin en)) none =
      (do
        let beforeSeg ← getitemSlice s none (some st)
        let beforeData :=
          if fromGain ≠ 0 then mulData s.sampleWidth (dbToFloat fromGain) beforeSeg.data
          else beforeSeg.data
        let r ← rampSpec s toGain fromGain st en
        let afterSeg ← getitemSlice s (some en) none
        let afterData :=
          if toGain ≠ 0 then mulData s.sampleWidth (dbToFloat toGain) afterSeg.data
          else afterSeg.data
        Except.ok (spawn s (beforeData ++ r ++ afterData))) := by
  have hfrq : (0:ℚ) < (s.frameRate : ℚ) := by exact_mod_cast hfr
  have hnz : ¬ (qSub (frameCountMs s ((en : ℤ) : ℚ)) (frameCountMs s ((st : ℤ) : ℚ)) = 0) := by
    rw [qSub_eq, frameCountMs_eq, frameCountMs_eq]
    have h1 : (0:ℚ) < ((en : ℤ) : ℚ) - ((st : ℤ) : ℚ) := by
      rw [sub_pos]
      exact_mod_cast hwin
    have h2 : ((en : ℤ) : ℚ) * (s.frameRate:ℚ) / 1000 - ((st : ℤ) : ℚ) * (s.frameRate:ℚ) / 1000 =
        (((en : ℤ) : ℚ) - ((st : ℤ) : ℚ)) * (s.frameRate:ℚ) / 1000 := by
      ring
    rw [h2]
    exact ne_of_gt (div_pos (mul_pos h1 hfrq) (by norm_num))
  simp only [fade, rampSpec]
  rw [if_neg (by simp)]
  rw [if_neg hg]
  simp only [Option.map_some']
  rw [min_eq_right hstL, min_eq_right henL]
  rw [if_neg (not_lt.mpr hst0), if_neg (not_lt.mpr hen0)]
  rw [if_neg (by simp : ¬ false = true)]
  by_cases hd : en - st > 100
  · simp only [if_pos hd]
    simp only [fadeGain_comm]
  · simp only [if_neg hd, if_neg hnz]
    simp only [fadeGain_comm, except_bind_ok]

/-- C4 witness: a precise-mode fade over the whole 3 ms of a 1000 Hz
segment matches the spec ramp decomposition. -/
theorem C4_fade_ramp_witness :
    fade segW3 (-120) 0 (some (.fin 0)) (some (.fin 3)) none =
      (do
        let beforeSeg ← getitemSlice segW3 none (some 0)
        let beforeData :=
          if (0:ℚ) ≠ 0 then mulData segW3.sampleWidth (dbToFloat 0) beforeSeg.data
          else beforeSeg.data
        let r ← rampSpec segW3 (-120) 0 0 3
        let afterSeg ← getitemSlice segW3 (some 3) none
        let afterData :=
          if (-120:ℚ) ≠ 0 then mulData segW3.sampleWidth (dbToFloat (-120)) afterSeg.data
          else afterSeg.data
        Except.ok (spawn segW3 (beforeData ++ r ++ afterData))) :=
  @C4_fade_ramp segW3 (-120) 0 0 3 (by decide) (by decide) (by decide) (by decide)
    (by decide) (by decide) (by decide)

